import Mathlib

/-!
Verification development for the qpid-proton C++ binding fragment and the
AMQP 1.0 engine core described by its specification.

The visible source of the fragment is the binding layer:
`proton-c/bindings/cpp/include/proton/facade.hpp` (the `counted_ptr`
smart pointer and reference counting), plus header declarations and a
pointer-conversion test.  The engine core (frame codec, endpoint state
machine, connection/session/link model, delivery/transfer engine) is
wrapped by this binding but its implementation is not part of the
fragment; those parts are modelled from the specification, as marked on
each definition.
-/

namespace Proton

/-! ## Bytes and big-endian fields -/

/-- A wire byte. -/
abbrev Byte := Fin 256

/-- Truncate a natural number to a byte, as storing into an octet does. -/
def mkByte (n : Nat) : Byte := ⟨n % 256, Nat.mod_lt _ (by omega)⟩

theorem mkByte_val (n : Nat) : (mkByte n).val = n % 256 := rfl

/-- Modelled from the spec: 2-byte big-endian channel field of a frame
header (the frame codec implementation is not in the fragment). -/
def be16 (n : Nat) : List Byte := [mkByte (n / 256), mkByte n]

/-- Modelled from the spec: 4-byte big-endian frame size field. -/
def be32 (n : Nat) : List Byte :=
  [mkByte (n / 16777216), mkByte (n / 65536), mkByte (n / 256), mkByte n]

/-- Value of a 2-byte big-endian field. -/
def be16val (b0 b1 : Byte) : Nat := b0.val * 256 + b1.val

/-- Value of a 4-byte big-endian field. -/
def be32val (b0 b1 b2 b3 : Byte) : Nat :=
  ((b0.val * 256 + b1.val) * 256 + b2.val) * 256 + b3.val

theorem be16val_be16 (n : Nat) (h : n < 65536) :
    be16val (mkByte (n / 256)) (mkByte n) = n := by
  simp only [be16val, mkByte_val]
  omega

theorem be32val_be32 (n : Nat) (h : n < 4294967296) :
    be32val (mkByte (n / 16777216)) (mkByte (n / 65536))
      (mkByte (n / 256)) (mkByte n) = n := by
  simp only [be32val, mkByte_val]
  omega

/-! ## Frame codec

Modelled from the spec: the AMQP performative kinds, and the
length-prefixed wire format — 4-byte big-endian size, 1-byte doff,
1-byte frame-type, 2-byte channel, then a performative body.  The body
of the model is one code byte naming the performative followed by the
opaque payload bytes (the self-describing type serialization is
delegated, out of scope). -/

/-- Modelled from the spec: the nine AMQP performatives. -/
inductive Performative
  | openF | beginF | attachF | flowF | transferF
  | dispositionF | detachF | endF | closeF
deriving DecidableEq

/-- Wire code of a performative (the AMQP descriptor codes 0x10-0x18). -/
def perfCode : Performative → Nat
  | .openF => 16
  | .beginF => 17
  | .attachF => 18
  | .flowF => 19
  | .transferF => 20
  | .dispositionF => 21
  | .detachF => 22
  | .endF => 23
  | .closeF => 24

def perfByte (p : Performative) : Byte := mkByte (perfCode p)

/-- Inverse of `perfCode`; unknown codes decode to `none`. -/
def codeToPerf : Nat → Option Performative
  | 16 => some .openF
  | 17 => some .beginF
  | 18 => some .attachF
  | 19 => some .flowF
  | 20 => some .transferF
  | 21 => some .dispositionF
  | 22 => some .detachF
  | 23 => some .endF
  | 24 => some .closeF
  | _ => none

theorem codeToPerf_perfByte (p : Performative) :
    codeToPerf (perfByte p).val = some p := by
  cases p <;> rfl

/-- Errors of the engine, from the specification's error taxonomy. -/
inductive ProtonError
  | malformedFrame | invalidState | resourceLimit | noCredit | nameConflict
deriving DecidableEq

/-- Result of decoding a byte buffer. -/
inductive DecodeResult
  | ok (p : Performative) (ch : Nat) (payload : List Byte) (consumed : Nat)
  | needMore
  | fail (e : ProtonError)
deriving DecidableEq

/-- Modelled from the spec: `encode(performative, channel, payload) -> bytes`.
Frame layout: size (4 bytes, includes itself), doff = 2, frame-type = 0,
channel (2 bytes), performative code, payload. -/
def frameEncode (p : Performative) (ch : Nat) (payload : List Byte) : List Byte :=
  be32 (9 + payload.length) ++
    (mkByte 2 :: mkByte 0 :: (be16 ch ++ (perfByte p :: payload)))

/-- Modelled from the spec:
`decode(bytes) -> (performative, channel, payload, bytes_consumed)`;
`MalformedFrameError` on an invalid length header or unknown performative
code, `NeedMoreData` when the buffer holds fewer bytes than the declared
frame length. -/
def frameDecode (bs : List Byte) : DecodeResult :=
  match bs with
  | b0 :: b1 :: b2 :: b3 :: tail =>
    let size := be32val b0 b1 b2 b3
    if size < 9 then .fail .malformedFrame
    else if 4 + tail.length < size then .needMore
    else
      match tail with
      | _d :: _t :: c0 :: c1 :: pc :: rest =>
        match codeToPerf pc.val with
        | none => .fail .malformedFrame
        | some p => .ok p (be16val c0 c1) (rest.take (size - 9)) size
      | _ => .needMore
  | _ => .needMore

/-! ## The reference-counting smart pointer (`facade.hpp`)

`counted_ptr<T>` stores a raw pointer `ptr_` to a reference counted
object.  We model raw pointers as `Option Nat` (object identities, with
`none` for the null pointer) and the collection of reference counts as a
map from identity to count; the count is `Int`, mirroring the
`int refcount_` field of class `counted`. -/

/-- Reference counts of all counted objects, indexed by object identity. -/
structure RcHeap where
  rc : Nat → Int

/-- `incref(p)` on a non-null pointer bumps the pointee's count; on the
null pointer there is no pointee and no count changes. -/
def increfOpt (h : RcHeap) (p : Option Nat) : RcHeap :=
  match p with
  | none => h
  | some q => ⟨fun x => if x = q then h.rc x + 1 else h.rc x⟩

/-- `decref(p)`: drops the pointee's count; no-op on the null pointer. -/
def decrefOpt (h : RcHeap) (p : Option Nat) : RcHeap :=
  match p with
  | none => h
  | some q => ⟨fun x => if x = q then h.rc x - 1 else h.rc x⟩

/-- The state of a `counted_ptr<T>`: its `ptr_` member. -/
structure CountedPtr where
  ptr : Option Nat
deriving DecidableEq

namespace CountedPtr

/-- `explicit counted_ptr(T *p = 0, bool add_ref = true) : ptr_(p)
{ if (p && add_ref) incref(ptr_); }` -/
def mk' (p : Option Nat) (addRef : Bool) (h : RcHeap) : CountedPtr × RcHeap :=
  (⟨p⟩, if p.isSome && addRef then increfOpt h p else h)

/-- `~counted_ptr() { decref(ptr_); }` -/
def destroy (x : CountedPtr) (h : RcHeap) : RcHeap := decrefOpt h x.ptr

/-- `void swap(counted_ptr& x) { std::swap(ptr_, x.ptr_); }` -/
def swap (x y : CountedPtr) : CountedPtr × CountedPtr := (⟨y.ptr⟩, ⟨x.ptr⟩)

/-- `T* get() const { return ptr_; }` -/
def get (x : CountedPtr) : Option Nat := x.ptr

/-- `operator bool() const { return ptr_; }` -/
def toBool (x : CountedPtr) : Bool := x.ptr.isSome

/-- `T* release() { T* ret = ptr_; ptr_ = 0; return ret; }` — threaded
through the heap to record that it performs no reference-count change. -/
def release (x : CountedPtr) (h : RcHeap) : Option Nat × CountedPtr × RcHeap :=
  (x.ptr, ⟨none⟩, h)

/-- `counted_ptr& operator=(const counted_ptr& p)
{ counted_ptr(p.get()).swap(*this); return *this; }` — the temporary is
constructed from `p.get()` with `add_ref = true`, swapped with `*this`,
and destroyed at the end of the statement. -/
def assign (this other : CountedPtr) (h : RcHeap) : CountedPtr × RcHeap :=
  let t1 := mk' other.get true h
  let t2 := swap t1.1 this
  (t2.2, destroy t2.1 t1.2)

end CountedPtr

/-! ## List helpers used by the engine model -/

/-- Replace the first element satisfying `p` by its image under `f`. -/
def modifyFirst (p : α → Bool) (f : α → α) : List α → List α
  | [] => []
  | x :: xs => if p x then f x :: xs else x :: modifyFirst p f xs

/-- Remove the first element satisfying `p`. -/
def removeFirst (p : α → Bool) : List α → List α
  | [] => []
  | x :: xs => if p x then xs else x :: removeFirst p xs

/-- Search upward from `n` for a number not in `used`, with enough fuel. -/
def smallestUnusedFrom (used : List Nat) : Nat → Nat → Nat
  | _, 0 => 0
  | n, fuel + 1 => if n ∈ used then smallestUnusedFrom used (n + 1) fuel else n

/-- Modelled from the spec: the smallest non-negative integer not in
`used` (the connection's channel allocator). -/
def smallestUnused (used : List Nat) : Nat :=
  smallestUnusedFrom used 0 (used.length + 1)

/-! ## Engine data model

Modelled from the spec: the engine core wrapped by the binding is not
part of the fragment, so the connection/session/link/delivery data model
and the operation semantics below follow the specification's data model
and component design sections. -/

/-- One direction of an endpoint's state. -/
inductive EpState
  | uninit | active | closed
deriving DecidableEq

/-- Local and remote state of the shared endpoint state machine. -/
structure Endpoint where
  localSt : EpState
  remoteSt : EpState
deriving DecidableEq

/-- Settlement state of a delivery. -/
inductive Settlement
  | unsettled | settledAccepted | settledRejected | settledReleased | settledModified
deriving DecidableEq

/-- Final outcomes a disposition can carry (never `unsettled`). -/
inductive Outcome
  | accepted | rejected | released | modified
deriving DecidableEq

def outcomeSettle : Outcome → Settlement
  | .accepted => .settledAccepted
  | .rejected => .settledRejected
  | .released => .settledReleased
  | .modified => .settledModified

/-- Link direction. -/
inductive Direction
  | sender | receiver
deriving DecidableEq

/-- A delivery: engine-unique identity, per-link tag, settlement,
payload so far, and whether fragmentation continues. -/
structure Delivery where
  id : Nat
  tag : Nat
  settlement : Settlement
  payload : List Byte
  more : Bool
deriving DecidableEq

/-- A link: identity, name, direction, endpoint state, credit
(`Int`, to state non-negativity), delivery-count, next delivery-tag and
pending deliveries. -/
structure Link where
  id : Nat
  name : String
  dir : Direction
  ep : Endpoint
  credit : Int
  deliveryCount : Nat
  nextTag : Nat
  deliveries : List Delivery
deriving DecidableEq

/-- A session: channel number, endpoint state, flow windows, links. -/
structure Session where
  channel : Nat
  ep : Endpoint
  incomingWindow : Int
  outgoingWindow : Int
  links : List Link
deriving DecidableEq

/-- An outbound frame at performative granularity. -/
structure Frame where
  perf : Performative
  channel : Nat
  more : Bool
  payload : List Byte
deriving DecidableEq

/-- Events drained by the application. -/
inductive Event
  | endpointStateChanged (ch : Option Nat) (ln : Option String) (st : EpState)
  | linkCreditChanged (ch : Nat) (ln : String) (credit : Int)
  | deliveryUpdated (ch : Nat) (ln : String) (id : Nat)
  | transportError
deriving DecidableEq

/-- The whole engine: the connection endpoint, its sessions, negotiated
limits, identity counters, the outbound frame queue and the event queue. -/
structure Engine where
  connEp : Endpoint
  sessions : List Session
  maxFrameSize : Nat
  channelMax : Nat
  nextLinkId : Nat
  nextDeliveryId : Nat
  frames : List Frame
  events : List Event
deriving DecidableEq

/-- A fresh engine with default negotiated limits. -/
def initEngine : Engine :=
  { connEp := ⟨.uninit, .uninit⟩, sessions := [], maxFrameSize := 512,
    channelMax := 32767, nextLinkId := 0, nextDeliveryId := 0,
    frames := [], events := [] }

/-- Session lookup by channel. -/
def sessionAt (e : Engine) (ch : Nat) : Option Session :=
  e.sessions.find? (fun s => s.channel == ch)

/-- Link lookup by name within a session. -/
def linkIn (s : Session) (ln : String) : Option Link :=
  s.links.find? (fun l => l.name == ln)

/-- All links of all sessions. -/
def allLinks (e : Engine) : List Link := (e.sessions.map Session.links).flatten

/-- All deliveries of all links. -/
def allDeliveries (e : Engine) : List Delivery :=
  ((allLinks e).map Link.deliveries).flatten

/-- Both directions closed: the endpoint is fully torn down. -/
def fullyClosed (ep : Endpoint) : Bool :=
  ep.localSt == .closed && ep.remoteSt == .closed

/-! ## Payload fragmentation and reassembly -/

/-- Modelled from the spec: fragment a payload into transfer-frame
chunks bounded by `mfs`, `more = true` on every chunk but the last.
`fuel` bounds the recursion; `fragment` supplies `payload.length`. -/
def fragGo (mfs : Nat) : Nat → List Byte → List (List Byte × Bool)
  | 0, p => [(p, false)]
  | fuel + 1, p =>
    if p.length ≤ mfs then [(p, false)]
    else (p.take mfs, true) :: fragGo mfs fuel (p.drop mfs)

def fragment (mfs : Nat) (p : List Byte) : List (List Byte × Bool) :=
  fragGo mfs p.length p

/-- Receiver-side reassembly state: buffered bytes of the delivery in
progress and the payloads of completed deliveries. -/
structure RecvState where
  buf : List Byte
  completed : List (List Byte)
deriving DecidableEq

/-- Modelled from the spec: frames marked `more` are buffered and
concatenated; the final fragment completes the delivery's payload. -/
def feedChunk (st : RecvState) (c : List Byte × Bool) : RecvState :=
  if c.2 then ⟨st.buf ++ c.1, st.completed⟩
  else ⟨[], st.completed ++ [st.buf ++ c.1]⟩

def recvAll (cs : List (List Byte × Bool)) : RecvState :=
  cs.foldl feedChunk ⟨[], []⟩

/-! ## Engine operations -/

/-- The application- and wire-facing operations of the engine.  `remote`
operations model inbound frames dispatched to the matching endpoint. -/
inductive Op
  | connOpen
  | connClose
  | createSession
  | sessOpen (ch : Nat)
  | sessClose (ch : Nat)
  | createLink (ch : Nat) (name : String) (dir : Direction)
  | linkOpen (ch : Nat) (ln : String)
  | linkClose (ch : Nat) (ln : String)
  | send (ch : Nat) (ln : String) (payload : List Byte)
  | flow (ch : Nat) (ln : String) (n : Nat)
  | accept (ch : Nat) (ln : String) (id : Nat)
  | reject (ch : Nat) (ln : String) (id : Nat)
  | release (ch : Nat) (ln : String) (id : Nat)
  | remoteConnOpen
  | remoteConnClose
  | remoteSessOpen (ch : Nat)
  | remoteSessClose (ch : Nat)
  | remoteLinkOpen (ch : Nat) (ln : String)
  | remoteLinkClose (ch : Nat) (ln : String)
  | remoteFlow (ch : Nat) (ln : String) (n : Nat)
  | remoteTransfer (ch : Nat) (ln : String) (tag : Nat) (chunk : List Byte) (more : Bool)
  | remoteDisposition (ch : Nat) (ln : String) (id : Nat) (out : Outcome)
deriving DecidableEq

/-- Modelled from the spec: a protocol violation detected on inbound
traffic surfaces a `transport-error` event and forces the connection
into CLOSED. -/
def protocolViolation (e : Engine) : Engine :=
  { e with connEp := { e.connEp with localSt := .closed },
           events := e.events ++ [.transportError] }

/-- `open()` on the connection: UNINIT→ACTIVE emitting the open
performative; a second `open()` is a no-op. -/
def doConnOpen (e : Engine) : Except ProtonError Engine :=
  match e.connEp.localSt with
  | .uninit => .ok { e with connEp := { e.connEp with localSt := .active },
                            frames := e.frames ++ [⟨.openF, 0, false, []⟩] }
  | .active => .ok e
  | .closed => .ok e

/-- Cascading local close applied to each owned session by a
connection-level `close()`. -/
def closeLocalSess (s : Session) : Session :=
  if s.ep.localSt == .active
  then { s with ep := { s.ep with localSt := .closed } } else s

/-- `close()` on the connection: ACTIVE→CLOSED emitting the close
performative and cascading local close onto all owned sessions, erasing
those that thereby complete; before `open()` it fails with
`InvalidStateError`; on a CLOSED connection it is a no-op. -/
def doConnClose (e : Engine) : Except ProtonError Engine :=
  match e.connEp.localSt with
  | .uninit => .error .invalidState
  | .closed => .ok e
  | .active =>
    .ok { e with
      connEp := { e.connEp with localSt := .closed },
      sessions := (e.sessions.map closeLocalSess).filter
        (fun s => !fullyClosed s.ep),
      frames := e.frames ++
        ((e.sessions.filter (fun s => s.ep.localSt == .active)).map
          (fun s => ⟨.endF, s.channel, false, []⟩)) ++ [⟨.closeF, 0, false, []⟩] }

/-- A freshly allocated session on channel `ch`. -/
def freshSession (ch : Nat) : Session :=
  { channel := ch, ep := ⟨.uninit, .uninit⟩, incomingWindow := 0,
    outgoingWindow := 0, links := [] }

/-- `create_session()`: allocates the smallest unused channel and an
UNINIT session; `ResourceLimitError` past the negotiated channel-max. -/
def doCreateSession (e : Engine) : Except ProtonError Engine :=
  let ch := smallestUnused (e.sessions.map Session.channel)
  if e.channelMax < ch then .error .resourceLimit
  else .ok { e with sessions := e.sessions ++ [freshSession ch] }

/-- `open()` on a session. -/
def doSessOpen (e : Engine) (ch : Nat) : Except ProtonError Engine :=
  match sessionAt e ch with
  | none => .error .invalidState
  | some s =>
    match s.ep.localSt with
    | .active => .ok e
    | .closed => .ok e
    | .uninit => .ok { e with
        sessions := modifyFirst (fun t => t.channel == ch)
          (fun t => { t with ep := { t.ep with localSt := .active } }) e.sessions,
        frames := e.frames ++ [⟨.beginF, ch, false, []⟩] }

/-- `close()` on a session; a session whose remote side is already
closed thereby completes and is erased. -/
def doSessClose (e : Engine) (ch : Nat) : Except ProtonError Engine :=
  match sessionAt e ch with
  | none => .error .invalidState
  | some s =>
    match s.ep.localSt with
    | .uninit => .error .invalidState
    | .closed => .ok e
    | .active =>
      if s.ep.remoteSt == .closed then
        .ok { e with sessions := removeFirst (fun t => t.channel == ch) e.sessions,
                     frames := e.frames ++ [⟨.endF, ch, false, []⟩] }
      else
        .ok { e with
          sessions := modifyFirst (fun t => t.channel == ch)
            (fun t => { t with ep := { t.ep with localSt := .closed } }) e.sessions,
          frames := e.frames ++ [⟨.endF, ch, false, []⟩] }

/-- `create_link(name, direction)`: the name must not collide with a
currently-active link of the session. -/
def doCreateLink (e : Engine) (ch : Nat) (name : String) (dir : Direction) :
    Except ProtonError Engine :=
  match sessionAt e ch with
  | none => .error .invalidState
  | some s =>
    if s.links.any (fun l => l.name == name && !(l.ep.localSt == .closed)) then
      .error .nameConflict
    else
      .ok { e with
        sessions := modifyFirst (fun t => t.channel == ch)
          (fun t => { t with links := t.links ++
            [{ id := e.nextLinkId, name := name, dir := dir,
               ep := ⟨.uninit, .uninit⟩, credit := 0, deliveryCount := 0,
               nextTag := 0, deliveries := [] }] }) e.sessions,
        nextLinkId := e.nextLinkId + 1 }

/-- Update the first link named `ln` of the first session on channel
`ch`. -/
def updateLink (e : Engine) (ch : Nat) (ln : String) (g : Link → Link) :
    List Session :=
  modifyFirst (fun t => t.channel == ch)
    (fun t => { t with links := modifyFirst (fun l => l.name == ln) g t.links })
    e.sessions

/-- `open()` on a link. -/
def doLinkOpen (e : Engine) (ch : Nat) (ln : String) : Except ProtonError Engine :=
  match sessionAt e ch with
  | none => .error .invalidState
  | some s =>
    match linkIn s ln with
    | none => .error .invalidState
    | some l =>
      match l.ep.localSt with
      | .active => .ok e
      | .closed => .ok e
      | .uninit => .ok { e with
          sessions := updateLink e ch ln
            (fun t => { t with ep := { t.ep with localSt := .active } }),
          frames := e.frames ++ [⟨.attachF, ch, false, []⟩] }

/-- Release applied to each still-unsettled delivery of a closing link. -/
def releaseUnsettled (d : Delivery) : Delivery :=
  if d.settlement == .unsettled
  then { d with settlement := .settledReleased } else d

/-- `close()` on a link: in-flight unsettled deliveries are released,
each with a delivery-updated event, and a detach frame is queued. -/
def doLinkClose (e : Engine) (ch : Nat) (ln : String) : Except ProtonError Engine :=
  match sessionAt e ch with
  | none => .error .invalidState
  | some s =>
    match linkIn s ln with
    | none => .error .invalidState
    | some l =>
      match l.ep.localSt with
      | .uninit => .error .invalidState
      | .closed => .ok e
      | .active => .ok { e with
          sessions := updateLink e ch ln
            (fun t => { t with
              ep := { t.ep with localSt := .closed },
              deliveries := t.deliveries.map releaseUnsettled }),
          frames := e.frames ++ [⟨.detachF, ch, false, []⟩],
          events := e.events ++
            ((l.deliveries.filter (fun d => d.settlement == .unsettled)).map
              (fun d => .deliveryUpdated ch ln d.id)) }

/-- The state change `send` applies to the sending link: one credit
unit consumed, delivery-count advanced, the next delivery-tag assigned
to a new unsettled delivery. -/
def sendUpd (nid : Nat) (payload : List Byte) (t : Link) : Link :=
  { t with
    credit := t.credit - 1,
    deliveryCount := t.deliveryCount + 1,
    nextTag := t.nextTag + 1,
    deliveries := t.deliveries ++
      [{ id := nid, tag := t.nextTag, settlement := .unsettled,
         payload := payload, more := false }] }

/-- `send(payload)`: `NoCreditError` with no state change when the
sender link has no credit; otherwise one credit unit is consumed, the
next delivery-tag is assigned, and the payload is fragmented into
transfer frames bounded by max-frame-size. -/
def doSend (e : Engine) (ch : Nat) (ln : String) (payload : List Byte) :
    Except ProtonError Engine :=
  match sessionAt e ch with
  | none => .error .invalidState
  | some s =>
    match linkIn s ln with
    | none => .error .invalidState
    | some l =>
      if l.dir == .receiver then .error .invalidState
      else if l.credit ≤ 0 then .error .noCredit
      else .ok { e with
        sessions := updateLink e ch ln (sendUpd e.nextDeliveryId payload),
        nextDeliveryId := e.nextDeliveryId + 1,
        frames := e.frames ++ (fragment e.maxFrameSize payload).map
          (fun c => ⟨.transferF, ch, c.2, c.1⟩) }

/-- `flow(credit_increment)` issued by the application on a receiver
link: grants credit, replenishes the incoming window and queues an
outbound flow performative. -/
def doFlow (e : Engine) (ch : Nat) (ln : String) (n : Nat) :
    Except ProtonError Engine :=
  match sessionAt e ch with
  | none => .error .invalidState
  | some s =>
    match linkIn s ln with
    | none => .error .invalidState
    | some l =>
      if l.dir == .sender then .error .invalidState
      else .ok { e with
        sessions := modifyFirst (fun t => t.channel == ch)
          (fun t => { t with
            incomingWindow := t.incomingWindow + n,
            links := modifyFirst (fun x => x.name == ln)
              (fun x => { x with credit := x.credit + n }) t.links }) e.sessions,
        frames := e.frames ++ [⟨.flowF, ch, false, []⟩],
        events := e.events ++ [.linkCreditChanged ch ln (l.credit + n)] }

/-- Local `accept`/`reject`/`release`: transition the delivery's local
settlement state and queue an outbound disposition frame. -/
def doLocalSettle (e : Engine) (ch : Nat) (ln : String) (id : Nat)
    (st : Settlement) : Except ProtonError Engine :=
  match sessionAt e ch with
  | none => .error .invalidState
  | some s =>
    match linkIn s ln with
    | none => .error .invalidState
    | some l =>
      match l.deliveries.find? (fun d => d.id == id) with
      | none => .error .invalidState
      | some _ => .ok { e with
          sessions := updateLink e ch ln (fun t =>
            { t with deliveries := modifyFirst (fun d => d.id == id)
                       (fun d => { d with settlement := st }) t.deliveries }),
          frames := e.frames ++ [⟨.dispositionF, ch, false, []⟩] }

/-- Remote open received for the connection endpoint. -/
def doRemoteConnOpen (e : Engine) : Except ProtonError Engine :=
  match e.connEp.remoteSt with
  | .uninit => .ok { e with
      connEp := { e.connEp with remoteSt := .active },
      events := e.events ++ [.endpointStateChanged none none .active] }
  | _ => .ok (protocolViolation e)

/-- Remote close received for the connection endpoint. -/
def doRemoteConnClose (e : Engine) : Except ProtonError Engine :=
  match e.connEp.remoteSt with
  | .active => .ok { e with
      connEp := { e.connEp with remoteSt := .closed },
      events := e.events ++ [.endpointStateChanged none none .closed] }
  | _ => .ok (protocolViolation e)

/-- Remote begin received for a session endpoint. -/
def doRemoteSessOpen (e : Engine) (ch : Nat) : Except ProtonError Engine :=
  match sessionAt e ch with
  | none => .ok (protocolViolation e)
  | some s =>
    match s.ep.remoteSt with
    | .uninit => .ok { e with
        sessions := modifyFirst (fun t => t.channel == ch)
          (fun t => { t with ep := { t.ep with remoteSt := .active } }) e.sessions,
        events := e.events ++ [.endpointStateChanged (some ch) none .active] }
    | _ => .ok (protocolViolation e)

/-- Remote end received for a session endpoint; a session whose local
side is already closed thereby completes and is erased. -/
def doRemoteSessClose (e : Engine) (ch : Nat) : Except ProtonError Engine :=
  match sessionAt e ch with
  | none => .ok (protocolViolation e)
  | some s =>
    match s.ep.remoteSt with
    | .active =>
      if s.ep.localSt == .closed then
        .ok { e with
          sessions := removeFirst (fun t => t.channel == ch) e.sessions,
          events := e.events ++ [.endpointStateChanged (some ch) none .closed] }
      else
        .ok { e with
          sessions := modifyFirst (fun t => t.channel == ch)
            (fun t => { t with ep := { t.ep with remoteSt := .closed } }) e.sessions,
          events := e.events ++ [.endpointStateChanged (some ch) none .closed] }
    | _ => .ok (protocolViolation e)

/-- Remote attach received for a link endpoint. -/
def doRemoteLinkOpen (e : Engine) (ch : Nat) (ln : String) :
    Except ProtonError Engine :=
  match sessionAt e ch with
  | none => .ok (protocolViolation e)
  | some s =>
    match linkIn s ln with
    | none => .ok (protocolViolation e)
    | some l =>
      match l.ep.remoteSt with
      | .uninit => .ok { e with
          sessions := updateLink e ch ln
            (fun t => { t with ep := { t.ep with remoteSt := .active } }),
          events := e.events ++ [.endpointStateChanged (some ch) (some ln) .active] }
      | _ => .ok (protocolViolation e)

/-- Remote detach received for a link endpoint. -/
def doRemoteLinkClose (e : Engine) (ch : Nat) (ln : String) :
    Except ProtonError Engine :=
  match sessionAt e ch with
  | none => .ok (protocolViolation e)
  | some s =>
    match linkIn s ln with
    | none => .ok (protocolViolation e)
    | some l =>
      match l.ep.remoteSt with
      | .active => .ok { e with
          sessions := updateLink e ch ln
            (fun t => { t with ep := { t.ep with remoteSt := .closed } }),
          events := e.events ++ [.endpointStateChanged (some ch) (some ln) .closed] }
      | _ => .ok (protocolViolation e)

/-- Remote flow received: grants credit to a sender link. -/
def doRemoteFlow (e : Engine) (ch : Nat) (ln : String) (n : Nat) :
    Except ProtonError Engine :=
  match sessionAt e ch with
  | none => .ok (protocolViolation e)
  | some s =>
    match linkIn s ln with
    | none => .ok (protocolViolation e)
    | some l =>
      if l.dir == .receiver then .ok (protocolViolation e)
      else .ok { e with
        sessions := updateLink e ch ln (fun t => { t with credit := t.credit + n }),
        events := e.events ++ [.linkCreditChanged ch ln (l.credit + n)] }

/-- Remote transfer received on a receiver link: an unknown delivery-tag
starts a new delivery; a known incomplete tag is extended; the final
fragment (`more = false`) completes it and emits a delivery-updated
event.  The incoming window is decremented per accepted frame. -/
def doRemoteTransfer (e : Engine) (ch : Nat) (ln : String) (tag : Nat)
    (chunk : List Byte) (more : Bool) : Except ProtonError Engine :=
  match sessionAt e ch with
  | none => .ok (protocolViolation e)
  | some s =>
    match linkIn s ln with
    | none => .ok (protocolViolation e)
    | some l =>
      if l.dir == .sender then .ok (protocolViolation e)
      else
        match l.deliveries.find? (fun d => d.tag == tag && d.more) with
        | some d => .ok { e with
            sessions := modifyFirst (fun t => t.channel == ch)
              (fun t => { t with
                incomingWindow := t.incomingWindow - 1,
                links := modifyFirst (fun x => x.name == ln)
                  (fun x => { x with
                    deliveries := modifyFirst (fun y => y.tag == tag && y.more)
                                    (fun y => { y with
                                      payload := y.payload ++ chunk,
                                      more := more }) x.deliveries }) t.links })
              e.sessions,
            events := e.events ++
              (if more then [] else [.deliveryUpdated ch ln d.id]) }
        | none => .ok { e with
            sessions := modifyFirst (fun t => t.channel == ch)
              (fun t => { t with
                incomingWindow := t.incomingWindow - 1,
                links := modifyFirst (fun x => x.name == ln)
                  (fun x => { x with deliveries := x.deliveries ++
                    [{ id := e.nextDeliveryId, tag := tag,
                       settlement := .unsettled, payload := chunk,
                       more := more }] }) t.links }) e.sessions,
            nextDeliveryId := e.nextDeliveryId + 1,
            events := e.events ++
              (if more then [] else [.deliveryUpdated ch ln e.nextDeliveryId]) }

/-- Remote disposition received: updates the delivery's settlement to
the carried outcome and emits a delivery-updated event. -/
def doRemoteSettle (e : Engine) (ch : Nat) (ln : String) (id : Nat)
    (out : Outcome) : Except ProtonError Engine :=
  match sessionAt e ch with
  | none => .ok (protocolViolation e)
  | some s =>
    match linkIn s ln with
    | none => .ok (protocolViolation e)
    | some l =>
      match l.deliveries.find? (fun d => d.id == id) with
      | none => .ok (protocolViolation e)
      | some _ => .ok { e with
          sessions := updateLink e ch ln (fun t =>
            { t with deliveries := modifyFirst (fun d => d.id == id)
                       (fun d => { d with settlement := outcomeSettle out })
                       t.deliveries }),
          events := e.events ++ [.deliveryUpdated ch ln id] }

/-- One engine operation: a synchronous transformation of in-memory
state producing frames and events; errors are returned to the caller
with no state change. -/
def step (e : Engine) : Op → Except ProtonError Engine
  | .connOpen => doConnOpen e
  | .connClose => doConnClose e
  | .createSession => doCreateSession e
  | .sessOpen ch => doSessOpen e ch
  | .sessClose ch => doSessClose e ch
  | .createLink ch name dir => doCreateLink e ch name dir
  | .linkOpen ch ln => doLinkOpen e ch ln
  | .linkClose ch ln => doLinkClose e ch ln
  | .send ch ln payload => doSend e ch ln payload
  | .flow ch ln n => doFlow e ch ln n
  | .accept ch ln id => doLocalSettle e ch ln id .settledAccepted
  | .reject ch ln id => doLocalSettle e ch ln id .settledRejected
  | .release ch ln id => doLocalSettle e ch ln id .settledReleased
  | .remoteConnOpen => doRemoteConnOpen e
  | .remoteConnClose => doRemoteConnClose e
  | .remoteSessOpen ch => doRemoteSessOpen e ch
  | .remoteSessClose ch => doRemoteSessClose e ch
  | .remoteLinkOpen ch ln => doRemoteLinkOpen e ch ln
  | .remoteLinkClose ch ln => doRemoteLinkClose e ch ln
  | .remoteFlow ch ln n => doRemoteFlow e ch ln n
  | .remoteTransfer ch ln tag chunk more => doRemoteTransfer e ch ln tag chunk more
  | .remoteDisposition ch ln id out => doRemoteSettle e ch ln id out

/-- A failed operation leaves the engine unchanged. -/
def applyOp (e : Engine) (op : Op) : Engine :=
  match step e op with
  | .ok e1 => e1
  | .error _ => e

/-- Run a sequence of operations. -/
def runOps (e : Engine) : List Op → Engine
  | [] => e
  | op :: ops => runOps (applyOp e op) ops

/-! ## C9: `counted_ptr::release` -/

/-- C9: for a `counted_ptr` holding pointer `q`, `release()` returns
`q` and leaves the pointer empty (`get() == 0`, `bool(p) == false`);
release itself changes no reference count, and destroying the released
pointer afterwards changes no reference count either — the caller's
reference survives. -/
theorem counted_ptr_release_spec (x : CountedPtr) (q : Nat) (h : RcHeap)
    (hq : x.ptr = some q) :
    (x.release h).1 = some q ∧
    (x.release h).2.1.get = none ∧
    (x.release h).2.1.toBool = false ∧
    (x.release h).2.2 = h ∧
    CountedPtr.destroy (x.release h).2.1 (x.release h).2.2 = h := by
  refine ⟨?_, rfl, rfl, rfl, rfl⟩
  simp [CountedPtr.release, hq]

theorem counted_ptr_release_spec_witness :
    (⟨some 7⟩ : CountedPtr).ptr = some 7 ∧
    ((⟨some 7⟩ : CountedPtr).release ⟨fun _ => 2⟩).1 = some 7 ∧
    ((⟨some 7⟩ : CountedPtr).release ⟨fun _ => 2⟩).2.1.get = none ∧
    CountedPtr.destroy ((⟨some 7⟩ : CountedPtr).release ⟨fun _ => 2⟩).2.1
      ((⟨some 7⟩ : CountedPtr).release ⟨fun _ => 2⟩).2.2 = ⟨fun _ => 2⟩ := by
  have hmain := counted_ptr_release_spec ⟨some 7⟩ 7 ⟨fun _ => 2⟩ rfl
  exact ⟨rfl, hmain.1, hmain.2.1, hmain.2.2.2.2⟩

/-! ## C10: `counted_ptr::operator=` -/

/-- C10: after `p = q` both pointers agree, and the reference counts of
every object are exactly as if `p` had been destroyed and reconstructed
from `q.get()`; self-assignment `p = p` changes neither `p`'s stored
pointer nor any reference count. -/
theorem counted_ptr_assign_spec (p q : CountedPtr) (h : RcHeap) :
    (CountedPtr.assign p q h).1.get = q.get ∧
    (CountedPtr.assign p q h).2 =
      (CountedPtr.mk' q.get true (CountedPtr.destroy p h)).2 ∧
    (CountedPtr.assign p p h).1 = p ∧
    (CountedPtr.assign p p h).2 = h := by
  obtain ⟨pp⟩ := p
  obtain ⟨qq⟩ := q
  obtain ⟨rc⟩ := h
  refine ⟨rfl, ?_, rfl, ?_⟩
  · cases qq with
    | none =>
      simp [CountedPtr.assign, CountedPtr.mk', CountedPtr.get, CountedPtr.swap,
        CountedPtr.destroy, increfOpt]
    | some b =>
      cases pp with
      | none =>
        simp [CountedPtr.assign, CountedPtr.mk', CountedPtr.get, CountedPtr.swap,
          CountedPtr.destroy, increfOpt, decrefOpt]
      | some a =>
        simp only [CountedPtr.assign, CountedPtr.mk', CountedPtr.get,
          CountedPtr.swap, CountedPtr.destroy, increfOpt, decrefOpt,
          Option.isSome_some, Bool.and_self]
        congr 1
        funext x
        by_cases hxa : x = a <;> by_cases hxb : x = b <;> simp [hxa, hxb] <;> omega
  · cases pp with
    | none =>
      simp [CountedPtr.assign, CountedPtr.mk', CountedPtr.get, CountedPtr.swap,
        CountedPtr.destroy, increfOpt, decrefOpt]
    | some a =>
      simp only [CountedPtr.assign, CountedPtr.mk', CountedPtr.get,
        CountedPtr.swap, CountedPtr.destroy, increfOpt, decrefOpt,
        Option.isSome_some, Bool.and_self]
      congr 1
      funext x
      by_cases hxa : x = a <;> simp [hxa]

/-! ## C1: frame codec round-trip -/

/-- C1: decoding the bytes produced by encoding a performative, channel
and payload returns exactly that triple (with the whole frame consumed),
for every channel in the 2-byte range and payload fitting the 4-byte
size field. -/
theorem frame_roundtrip (p : Performative) (ch : Nat) (payload : List Byte)
    (h1 : ch < 65536) (h2 : 9 + payload.length < 4294967296) :
    frameDecode (frameEncode p ch payload) =
      .ok p ch payload (9 + payload.length) := by
  have henc : frameEncode p ch payload =
      mkByte ((9 + payload.length) / 16777216) ::
      mkByte ((9 + payload.length) / 65536) ::
      mkByte ((9 + payload.length) / 256) :: mkByte (9 + payload.length) ::
      mkByte 2 :: mkByte 0 :: mkByte (ch / 256) :: mkByte ch ::
      perfByte p :: payload := rfl
  rw [henc]
  simp only [frameDecode, be32val_be32 (9 + payload.length) h2,
    codeToPerf_perfByte, List.length_cons]
  rw [if_neg (by omega), if_neg (by omega)]
  rw [be16val_be16 ch h1]
  simp

theorem frame_roundtrip_witness :
    (5 : Nat) < 65536 ∧
    9 + ([mkByte 1, mkByte 2] : List Byte).length < 4294967296 ∧
    frameDecode (frameEncode .transferF 5 [mkByte 1, mkByte 2]) =
      .ok .transferF 5 [mkByte 1, mkByte 2]
        (9 + ([mkByte 1, mkByte 2] : List Byte).length) :=
  ⟨by decide, by decide, frame_roundtrip .transferF 5 [mkByte 1, mkByte 2]
    (by decide) (by decide)⟩

/-! ## Fragmentation lemmas (C6) -/

theorem fragGo_ne_nil (mfs fuel : Nat) (p : List Byte) : fragGo mfs fuel p ≠ [] := by
  cases fuel with
  | zero => simp [fragGo]
  | succ n =>
    simp only [fragGo]
    split <;> simp

theorem fragGo_chunk_le (mfs : Nat) (hm : 0 < mfs) :
    ∀ (fuel : Nat) (p : List Byte), p.length ≤ fuel →
      ∀ c ∈ fragGo mfs fuel p, c.1.length ≤ mfs := by
  intro fuel
  induction fuel with
  | zero =>
    intro p hp c hc
    simp [fragGo] at hc
    subst hc
    simpa using Nat.le_trans hp (by omega)
  | succ n ih =>
    intro p hp c hc
    simp only [fragGo] at hc
    by_cases hle : p.length ≤ mfs
    · rw [if_pos hle] at hc
      simp at hc
      subst hc
      exact hle
    · rw [if_neg hle] at hc
      rcases List.mem_cons.mp hc with h | h
      · subst h
        simp [List.length_take]
      · exact ih (p.drop mfs) (by simp [List.length_drop]; omega) c h

theorem fragGo_flags (mfs : Nat) (hm : 0 < mfs) :
    ∀ (fuel : Nat) (p : List Byte), p.length ≤ fuel →
      (fragGo mfs fuel p).map Prod.snd =
        List.replicate ((fragGo mfs fuel p).length - 1) true ++ [false] := by
  intro fuel
  induction fuel with
  | zero => intro p hp; simp [fragGo]
  | succ n ih =>
    intro p hp
    simp only [fragGo]
    by_cases hle : p.length ≤ mfs
    · rw [if_pos hle]; simp
    · rw [if_neg hle]
      have hrec := ih (p.drop mfs) (by simp [List.length_drop]; omega)
      obtain ⟨c, cs, hcons⟩ :
          ∃ c cs, fragGo mfs n (p.drop mfs) = c :: cs := by
        cases hgo : fragGo mfs n (p.drop mfs) with
        | nil => exact absurd hgo (fragGo_ne_nil mfs n (p.drop mfs))
        | cons c cs => exact ⟨c, cs, rfl⟩
      rw [hcons] at hrec ⊢
      simp only [List.map_cons, List.length_cons, Nat.add_sub_cancel] at hrec ⊢
      rw [hrec]
      simp [List.replicate_succ]

theorem fragGo_recv (mfs : Nat) (hm : 0 < mfs) :
    ∀ (fuel : Nat) (p buf : List Byte) (done : List (List Byte)),
      p.length ≤ fuel →
      (fragGo mfs fuel p).foldl feedChunk ⟨buf, done⟩ = ⟨[], done ++ [buf ++ p]⟩ := by
  intro fuel
  induction fuel with
  | zero =>
    intro p buf done hp
    have : p = [] := List.eq_nil_of_length_eq_zero (by omega)
    subst this
    simp [fragGo, feedChunk]
  | succ n ih =>
    intro p buf done hp
    simp only [fragGo]
    by_cases hle : p.length ≤ mfs
    · rw [if_pos hle]; simp [feedChunk]
    · rw [if_neg hle]
      simp only [List.foldl_cons, feedChunk, if_pos]
      rw [ih (p.drop mfs) (buf ++ p.take mfs) done
        (by simp [List.length_drop]; omega)]
      simp [List.append_assoc]

theorem fragGo_flatten (mfs : Nat) (hm : 0 < mfs) :
    ∀ (fuel : Nat) (p : List Byte), p.length ≤ fuel →
      ((fragGo mfs fuel p).map Prod.fst).flatten = p := by
  intro fuel
  induction fuel with
  | zero =>
    intro p hp
    have : p = [] := List.eq_nil_of_length_eq_zero (by omega)
    subst this
    simp [fragGo]
  | succ n ih =>
    intro p hp
    simp only [fragGo]
    by_cases hle : p.length ≤ mfs
    · rw [if_pos hle]; simp
    · rw [if_neg hle]
      simp only [List.map_cons, List.flatten_cons]
      rw [ih (p.drop mfs) (by simp [List.length_drop]; omega)]
      exact List.take_append_drop mfs p

/-! ## Sample states used by witnesses -/

def sampleLink : Link :=
  { id := 0, name := "L1", dir := .sender, ep := ⟨.active, .active⟩,
    credit := 1, deliveryCount := 0, nextTag := 0, deliveries := [] }

def sampleLink0 : Link := { sampleLink with credit := 0 }

def sampleSession (l : Link) : Session :=
  { channel := 0, ep := ⟨.active, .active⟩, incomingWindow := 0,
    outgoingWindow := 0, links := [l] }

def sampleEngine (l : Link) : Engine :=
  { connEp := ⟨.active, .active⟩, sessions := [sampleSession l],
    maxFrameSize := 512, channelMax := 32767, nextLinkId := 1,
    nextDeliveryId := 0, frames := [], events := [] }

/-! ## C6: fragmentation and reassembly -/

/-- C6: a payload longer than max-frame-size is fragmented by `send`
into several transfer frames, each chunk bounded by max-frame-size, with
`more = true` on all chunks except the last; the receiver, concatenating
the fragments in order, completes exactly one delivery whose payload is
byte-for-byte the sent payload. -/
theorem fragment_spec :
    (∀ (mfs : Nat) (p : List Byte), 0 < mfs → mfs < p.length →
      2 ≤ (fragment mfs p).length ∧
      (∀ c ∈ fragment mfs p, c.1.length ≤ mfs) ∧
      (fragment mfs p).map Prod.snd =
        List.replicate ((fragment mfs p).length - 1) true ++ [false] ∧
      recvAll (fragment mfs p) = ⟨[], [p]⟩) ∧
    (∀ (e : Engine) (ch : Nat) (ln : String) (pay : List Byte) (e1 : Engine),
      step e (.send ch ln pay) = .ok e1 →
      e1.frames = e.frames ++ (fragment e.maxFrameSize pay).map
        (fun c => ⟨.transferF, ch, c.2, c.1⟩)) := by
  constructor
  · intro mfs p hm hp
    refine ⟨?_, fragGo_chunk_le mfs hm p.length p le_rfl,
      fragGo_flags mfs hm p.length p le_rfl,
      fragGo_recv mfs hm p.length p [] [] le_rfl⟩
    show 2 ≤ (fragGo mfs p.length p).length
    cases hL : p.length with
    | zero => omega
    | succ n =>
      simp only [fragGo]
      rw [if_neg (by omega)]
      have := List.length_pos.mpr (fragGo_ne_nil mfs n (p.drop mfs))
      simp only [List.length_cons]
      omega
  · intro e ch ln pay e1 hstep
    simp only [step, doSend] at hstep
    split at hstep
    · cases hstep
    · split at hstep
      · cases hstep
      · split at hstep
        · cases hstep
        · split at hstep
          · cases hstep
          · cases hstep
            rfl

theorem fragment_spec_witness :
    ((0 : Nat) < 2 ∧ 2 < ([mkByte 1, mkByte 2, mkByte 3] : List Byte).length) ∧
    recvAll (fragment 2 [mkByte 1, mkByte 2, mkByte 3]) =
      ⟨[], [[mkByte 1, mkByte 2, mkByte 3]]⟩ ∧
    step (sampleEngine sampleLink) (.send 0 "L1" [mkByte 9]) =
      .ok (applyOp (sampleEngine sampleLink) (.send 0 "L1" [mkByte 9])) ∧
    (applyOp (sampleEngine sampleLink) (.send 0 "L1" [mkByte 9])).frames =
      (sampleEngine sampleLink).frames ++
        (fragment (sampleEngine sampleLink).maxFrameSize [mkByte 9]).map
          (fun c => ⟨.transferF, 0, c.2, c.1⟩) :=
  ⟨⟨by decide, by decide⟩,
   (fragment_spec.1 2 [mkByte 1, mkByte 2, mkByte 3] (by decide) (by decide)).2.2.2,
   rfl,
   fragment_spec.2 (sampleEngine sampleLink) 0 "L1" [mkByte 9] _ rfl⟩

/-! ## C7 and C8: endpoint open/close discipline -/

def sampleUninitLink : Link :=
  { id := 0, name := "L1", dir := .sender, ep := ⟨.uninit, .uninit⟩,
    credit := 0, deliveryCount := 0, nextTag := 0, deliveries := [] }

def sampleUninitSession : Session :=
  { channel := 0, ep := ⟨.uninit, .uninit⟩, incomingWindow := 0,
    outgoingWindow := 0, links := [sampleUninitLink] }

def sampleUninitEngine : Engine :=
  { connEp := ⟨.uninit, .uninit⟩, sessions := [sampleUninitSession],
    maxFrameSize := 512, channelMax := 32767, nextLinkId := 1,
    nextDeliveryId := 0, frames := [], events := [] }

def sampleClosedLink : Link :=
  { id := 0, name := "L1", dir := .sender, ep := ⟨.closed, .active⟩,
    credit := 0, deliveryCount := 0, nextTag := 0, deliveries := [] }

def sampleClosedSession : Session :=
  { channel := 0, ep := ⟨.closed, .active⟩, incomingWindow := 0,
    outgoingWindow := 0, links := [sampleClosedLink] }

def sampleClosedEngine : Engine :=
  { connEp := ⟨.closed, .active⟩, sessions := [sampleClosedSession],
    maxFrameSize := 512, channelMax := 32767, nextLinkId := 1,
    nextDeliveryId := 0, frames := [], events := [] }

/-- C7: on every endpoint kind, `open()` with local state already ACTIVE
is a no-op (engine unchanged, so no second open performative is queued),
and `close()` with local state still UNINIT fails with
`InvalidStateError` and leaves the engine unchanged. -/
theorem endpoint_open_close_spec (e : Engine) :
    (e.connEp.localSt = .active → step e .connOpen = .ok e) ∧
    (e.connEp.localSt = .uninit →
      step e .connClose = .error .invalidState ∧ applyOp e .connClose = e) ∧
    (∀ ch s, sessionAt e ch = some s →
      (s.ep.localSt = .active → step e (.sessOpen ch) = .ok e) ∧
      (s.ep.localSt = .uninit →
        step e (.sessClose ch) = .error .invalidState ∧
        applyOp e (.sessClose ch) = e)) ∧
    (∀ ch ln s l, sessionAt e ch = some s → linkIn s ln = some l →
      (l.ep.localSt = .active → step e (.linkOpen ch ln) = .ok e) ∧
      (l.ep.localSt = .uninit →
        step e (.linkClose ch ln) = .error .invalidState ∧
        applyOp e (.linkClose ch ln) = e)) := by
  refine ⟨?_, ?_, ?_, ?_⟩
  · intro h
    simp [step, doConnOpen, h]
  · intro h
    constructor
    · simp [step, doConnClose, h]
    · simp [applyOp, step, doConnClose, h]
  · intro ch s hs
    constructor
    · intro h
      simp [step, doSessOpen, hs, h]
    · intro h
      constructor
      · simp [step, doSessClose, hs, h]
      · simp [applyOp, step, doSessClose, hs, h]
  · intro ch ln s l hs hl
    constructor
    · intro h
      simp [step, doLinkOpen, hs, hl, h]
    · intro h
      constructor
      · simp [step, doLinkClose, hs, hl, h]
      · simp [applyOp, step, doLinkClose, hs, hl, h]

theorem endpoint_open_close_spec_witness :
    step (sampleEngine sampleLink) .connOpen = .ok (sampleEngine sampleLink) ∧
    step sampleUninitEngine .connClose = .error .invalidState ∧
    applyOp sampleUninitEngine .connClose = sampleUninitEngine ∧
    step (sampleEngine sampleLink) (.sessOpen 0) = .ok (sampleEngine sampleLink) ∧
    step sampleUninitEngine (.sessClose 0) = .error .invalidState ∧
    step (sampleEngine sampleLink) (.linkOpen 0 "L1") =
      .ok (sampleEngine sampleLink) ∧
    step sampleUninitEngine (.linkClose 0 "L1") = .error .invalidState := by
  have h1 := endpoint_open_close_spec (sampleEngine sampleLink)
  have h2 := endpoint_open_close_spec sampleUninitEngine
  refine ⟨h1.1 (by rfl), (h2.2.1 (by rfl)).1, (h2.2.1 (by rfl)).2, ?_, ?_, ?_, ?_⟩
  · exact (h1.2.2.1 0 (sampleSession sampleLink) (by rfl)).1 (by rfl)
  · exact ((h2.2.2.1 0 sampleUninitSession (by rfl)).2 (by rfl)).1
  · exact (h1.2.2.2 0 "L1" (sampleSession sampleLink) sampleLink (by rfl)
      (by rfl)).1 (by rfl)
  · exact ((h2.2.2.2 0 "L1" sampleUninitSession sampleUninitLink (by rfl)
      (by rfl)).2 (by rfl)).1

/-- C8: `close()` is idempotent on every endpoint kind: with local state
already CLOSED it returns the engine unchanged, so no additional close
performative frame and no duplicate event is enqueued. -/
theorem close_idempotent (e : Engine) :
    (e.connEp.localSt = .closed → step e .connClose = .ok e) ∧
    (∀ ch s, sessionAt e ch = some s → s.ep.localSt = .closed →
      step e (.sessClose ch) = .ok e) ∧
    (∀ ch ln s l, sessionAt e ch = some s → linkIn s ln = some l →
      l.ep.localSt = .closed → step e (.linkClose ch ln) = .ok e) := by
  refine ⟨?_, ?_, ?_⟩
  · intro h
    simp [step, doConnClose, h]
  · intro ch s hs h
    simp [step, doSessClose, hs, h]
  · intro ch ln s l hs hl h
    simp [step, doLinkClose, hs, hl, h]

theorem close_idempotent_witness :
    step sampleClosedEngine .connClose = .ok sampleClosedEngine ∧
    step sampleClosedEngine (.sessClose 0) = .ok sampleClosedEngine ∧
    step sampleClosedEngine (.linkClose 0 "L1") = .ok sampleClosedEngine := by
  have h := close_idempotent sampleClosedEngine
  exact ⟨h.1 (by rfl), h.2.1 0 sampleClosedSession (by rfl) (by rfl),
    h.2.2 0 "L1" sampleClosedSession sampleClosedLink (by rfl) (by rfl) (by rfl)⟩

/-! ## Characterizations of `find?`, `modifyFirst`, `removeFirst` -/

theorem find?_split {α} (p : α → Bool) (f : α → α) :
    ∀ (xs : List α) (x : α), xs.find? p = some x →
      ∃ pre post, xs = pre ++ x :: post ∧ (∀ y ∈ pre, p y = false) ∧
        p x = true ∧ modifyFirst p f xs = pre ++ f x :: post ∧
        removeFirst p xs = pre ++ post := by
  intro xs
  induction xs with
  | nil => intro x h; simp at h
  | cons a as ih =>
    intro x h
    by_cases hpa : p a
    · rw [List.find?_cons_of_pos _ hpa] at h
      obtain rfl : a = x := by injection h
      exact ⟨[], as, by simp, by simp, hpa,
        by simp [modifyFirst, hpa], by simp [removeFirst, hpa]⟩
    · rw [List.find?_cons_of_neg _ hpa] at h
      obtain ⟨pre, post, h1, h2, h3, h4, h5⟩ := ih x h
      refine ⟨a :: pre, post, by simp [h1], ?_, h3,
        by simp [modifyFirst, hpa, h4], by simp [removeFirst, hpa, h5]⟩
      intro y hy
      rcases List.mem_cons.mp hy with rfl | hy2
      · simpa using hpa
      · exact h2 y hy2

theorem find?_append_pos {α} (p : α → Bool) (pre post : List α) (z : α)
    (hpre : ∀ y ∈ pre, p y = false) (hz : p z = true) :
    (pre ++ z :: post).find? p = some z := by
  induction pre with
  | nil => simp [List.find?_cons_of_pos _ hz]
  | cons a as ih =>
    have ha : p a = false := hpre a (by simp)
    simp only [List.cons_append]
    rw [List.find?_cons_of_neg _ (by simp [ha])]
    exact ih (fun y hy => hpre y (by simp [hy]))

/-- Membership in a `modifyFirst` image. -/
theorem mem_modifyFirst {α} (p : α → Bool) (f : α → α) :
    ∀ (xs : List α) (y : α), y ∈ modifyFirst p f xs →
      y ∈ xs ∨ ∃ x ∈ xs, p x = true ∧ y = f x := by
  intro xs
  induction xs with
  | nil => intro y h; simp [modifyFirst] at h
  | cons a as ih =>
    intro y h
    simp only [modifyFirst] at h
    by_cases hpa : p a
    · rw [if_pos hpa] at h
      rcases List.mem_cons.mp h with rfl | h2
      · exact Or.inr ⟨a, by simp, hpa, rfl⟩
      · exact Or.inl (by simp [h2])
    · rw [if_neg hpa] at h
      rcases List.mem_cons.mp h with rfl | h2
      · exact Or.inl (by simp)
      · rcases ih y h2 with h3 | ⟨x, hx1, hx2, hx3⟩
        · exact Or.inl (by simp [h3])
        · exact Or.inr ⟨x, by simp [hx1], hx2, hx3⟩

/-- Membership after `removeFirst` implies membership before. -/
theorem mem_removeFirst {α} (p : α → Bool) :
    ∀ (xs : List α) (y : α), y ∈ removeFirst p xs → y ∈ xs := by
  intro xs
  induction xs with
  | nil => intro y h; simp [removeFirst] at h
  | cons a as ih =>
    intro y h
    simp only [removeFirst] at h
    by_cases hpa : p a
    · rw [if_pos hpa] at h; exact by simp [h]
    · rw [if_neg hpa] at h
      rcases List.mem_cons.mp h with rfl | h2
      · exact by simp
      · exact by simp [ih y h2]

/-- `map` over `modifyFirst` is the original `map` when `f` preserves
the mapped field. -/
theorem map_modifyFirst_eq {α β} (p : α → Bool) (f : α → α) (g : α → β)
    (hg : ∀ x, g (f x) = g x) :
    ∀ xs : List α, (modifyFirst p f xs).map g = xs.map g := by
  intro xs
  induction xs with
  | nil => rfl
  | cons a as ih =>
    simp only [modifyFirst]
    by_cases hpa : p a
    · rw [if_pos hpa]; simp [hg]
    · rw [if_neg hpa]; simp [ih]

/-- `removeFirst` yields a sublist. -/
theorem removeFirst_sublist {α} (p : α → Bool) :
    ∀ xs : List α, (removeFirst p xs).Sublist xs := by
  intro xs
  induction xs with
  | nil => simp [removeFirst]
  | cons a as ih =>
    simp only [removeFirst]
    by_cases hpa : p a
    · rw [if_pos hpa]; exact List.sublist_cons_self a as
    · rw [if_neg hpa]; exact List.Sublist.cons₂ a ih

/-! ## C2: send and credit -/

/-- C2: on a sender link, `send` with zero credit fails with
`NoCreditError` leaving the engine (hence the link) unchanged; with
positive credit it succeeds, consumes exactly one credit unit, advances
the delivery-count, and assigns the next delivery-tag to a new unsettled
delivery carrying the payload. -/
theorem send_credit_spec (e : Engine) (ch : Nat) (ln : String) (pay : List Byte)
    (s : Session) (l : Link) (hs : sessionAt e ch = some s)
    (hl : linkIn s ln = some l) (hdir : l.dir = .sender) :
    (l.credit = 0 →
      step e (.send ch ln pay) = .error .noCredit ∧
      applyOp e (.send ch ln pay) = e) ∧
    (0 < l.credit →
      ∃ e1 s1 l1, step e (.send ch ln pay) = .ok e1 ∧
        sessionAt e1 ch = some s1 ∧ linkIn s1 ln = some l1 ∧
        l1.credit = l.credit - 1 ∧
        l1.deliveryCount = l.deliveryCount + 1 ∧
        l1.nextTag = l.nextTag + 1 ∧
        l1.deliveries = l.deliveries ++
          [{ id := e.nextDeliveryId, tag := l.nextTag,
             settlement := .unsettled, payload := pay, more := false }]) := by
  constructor
  · intro h0
    constructor
    · simp [step, doSend, hs, hl, hdir, h0]
    · simp [applyOp, step, doSend, hs, hl, hdir, h0]
  · intro hpos
    have hne : ¬ l.credit ≤ 0 := by omega
    have hdirb : (l.dir == Direction.receiver) = false := by
      simp [hdir]
    obtain ⟨lpre, lpost, hls, hlpre, hlpx, hlmod, -⟩ :=
      find?_split (fun x : Link => x.name == ln) (sendUpd e.nextDeliveryId pay)
        s.links l
        (show s.links.find? (fun x => x.name == ln) = some l from hl)
    obtain ⟨pre, post, hss, hspre, hspx, hsmod, -⟩ :=
      find?_split (fun t : Session => t.channel == ch)
        (fun t : Session =>
          { t with links := modifyFirst (fun x => x.name == ln)
                              (sendUpd e.nextDeliveryId pay) t.links })
        e.sessions s
        (show e.sessions.find? (fun t => t.channel == ch) = some s from hs)
    refine ⟨{ e with
        sessions := updateLink e ch ln (sendUpd e.nextDeliveryId pay),
        nextDeliveryId := e.nextDeliveryId + 1,
        frames := e.frames ++ (fragment e.maxFrameSize pay).map
          (fun c => ⟨.transferF, ch, c.2, c.1⟩) },
      { s with links := modifyFirst (fun x => x.name == ln)
                          (sendUpd e.nextDeliveryId pay) s.links },
      sendUpd e.nextDeliveryId pay l, ?_, ?_, ?_, rfl, rfl, rfl, rfl⟩
    · simp [step, doSend, hs, hl, hdirb, hne]
    · show List.find? (fun t => t.channel == ch)
        (modifyFirst (fun t : Session => t.channel == ch)
          (fun t : Session =>
            { t with links := modifyFirst (fun x => x.name == ln)
                                (sendUpd e.nextDeliveryId pay) t.links })
          e.sessions) = some _
      rw [hsmod]
      exact find?_append_pos _ pre post _ hspre hspx
    · show List.find? (fun x => x.name == ln)
        (modifyFirst (fun x : Link => x.name == ln)
          (sendUpd e.nextDeliveryId pay) s.links) = some _
      rw [hlmod]
      exact find?_append_pos _ lpre lpost _ hlpre hlpx

theorem send_credit_spec_witness :
    (step (sampleEngine sampleLink0) (.send 0 "L1" [mkByte 9]) =
        .error .noCredit ∧
      applyOp (sampleEngine sampleLink0) (.send 0 "L1" [mkByte 9]) =
        sampleEngine sampleLink0) ∧
    (∃ e1 s1 l1,
      step (sampleEngine sampleLink) (.send 0 "L1" [mkByte 9]) = .ok e1 ∧
      sessionAt e1 0 = some s1 ∧ linkIn s1 "L1" = some l1 ∧
      l1.credit = sampleLink.credit - 1 ∧
      l1.deliveryCount = sampleLink.deliveryCount + 1 ∧
      l1.nextTag = sampleLink.nextTag + 1 ∧
      l1.deliveries = sampleLink.deliveries ++
        [{ id := (sampleEngine sampleLink).nextDeliveryId,
           tag := sampleLink.nextTag, settlement := .unsettled,
           payload := [mkByte 9], more := false }]) :=
  ⟨(send_credit_spec (sampleEngine sampleLink0) 0 "L1" [mkByte 9]
      (sampleSession sampleLink0) sampleLink0 (by rfl) (by rfl) (by rfl)).1
      (by rfl),
   (send_credit_spec (sampleEngine sampleLink) 0 "L1" [mkByte 9]
      (sampleSession sampleLink) sampleLink (by rfl) (by rfl) (by rfl)).2
      (by decide)⟩

/-! ## The channel allocator -/

theorem filter_mono_length {α} (p q : α → Bool) (hpq : ∀ x, p x = true → q x = true) :
    ∀ l : List α, (l.filter p).length ≤ (l.filter q).length := by
  intro l
  induction l with
  | nil => simp
  | cons a as ih =>
    by_cases hpa : p a
    · have hqa : q a = true := hpq a hpa
      simp only [List.filter_cons, hpa, hqa, if_pos, List.length_cons]
      omega
    · simp only [List.filter_cons, Bool.not_eq_true] at *
      rw [if_neg (by simp [hpa])]
      by_cases hqa : q a
      · rw [if_pos hqa]
        simp only [List.length_cons]
        omega
      · rw [if_neg hqa]
        exact ih

theorem filter_ge_succ_lt (used : List Nat) (n : Nat) (hn : n ∈ used) :
    (used.filter (fun m => decide (n + 1 ≤ m))).length <
      (used.filter (fun m => decide (n ≤ m))).length := by
  induction used with
  | nil => cases hn
  | cons a as ih =>
    by_cases h1 : n + 1 ≤ a
    · have h2 : n ≤ a := by omega
      have hna : n ≠ a := by omega
      have hn2 : n ∈ as := by
        rcases List.mem_cons.mp hn with h | h
        · exact absurd h hna
        · exact h
      simp only [List.filter_cons, decide_eq_true_eq]
      rw [if_pos (by simpa using h1), if_pos (by simpa using h2)]
      simp only [List.length_cons]
      exact Nat.succ_lt_succ (ih hn2)
    · by_cases h2 : n ≤ a
      · simp only [List.filter_cons]
        rw [if_neg (by simpa using h1), if_pos (by simpa using h2)]
        simp only [List.length_cons]
        have := filter_mono_length (fun m => decide (n + 1 ≤ m))
          (fun m => decide (n ≤ m)) (by intro x hx; simp at hx ⊢; omega) as
        omega
      · have hna : n ≠ a := by omega
        have hn2 : n ∈ as := by
          rcases List.mem_cons.mp hn with h | h
          · exact absurd h hna
          · exact h
        simp only [List.filter_cons]
        rw [if_neg (by simpa using h1), if_neg (by simpa using h2)]
        exact ih hn2

theorem smallestUnusedFrom_spec (used : List Nat) :
    ∀ (fuel n : Nat),
      (used.filter (fun m => decide (n ≤ m))).length < fuel →
      smallestUnusedFrom used n fuel ∉ used ∧
      n ≤ smallestUnusedFrom used n fuel ∧
      ∀ m, n ≤ m → m < smallestUnusedFrom used n fuel → m ∈ used := by
  intro fuel
  induction fuel with
  | zero => intro n h; omega
  | succ k ih =>
    intro n h
    simp only [smallestUnusedFrom]
    by_cases hn : n ∈ used
    · rw [if_pos hn]
      have hlt := filter_ge_succ_lt used n hn
      obtain ⟨h1, h2, h3⟩ := ih (n + 1) (by omega)
      refine ⟨h1, by omega, ?_⟩
      intro m hm1 hm2
      by_cases hmn : m = n
      · exact hmn ▸ hn
      · exact h3 m (by omega) hm2
    · rw [if_neg hn]
      exact ⟨hn, le_rfl, fun m hm1 hm2 => by omega⟩

theorem smallestUnused_spec (used : List Nat) :
    smallestUnused used ∉ used ∧ ∀ m < smallestUnused used, m ∈ used := by
  have hfil : used.filter (fun m => decide (0 ≤ m)) = used :=
    List.filter_eq_self.mpr (fun a _ => by simp)
  have h := smallestUnusedFrom_spec used (used.length + 1) 0
    (by rw [hfil]; omega)
  exact ⟨h.1, fun m hm => h.2.2 m (Nat.zero_le m) hm⟩

/-! ## Shapes of the engine operations

Each lemma characterizes the sessions list and counters of the engine an
operation returns, in a form the invariant proofs below consume. -/

theorem closeLocalSess_channel (s : Session) :
    (closeLocalSess s).channel = s.channel := by
  simp only [closeLocalSess]
  split <;> rfl

theorem closeLocalSess_links (s : Session) :
    (closeLocalSess s).links = s.links := by
  simp only [closeLocalSess]
  split <;> rfl

theorem shape_doConnOpen (e e1 : Engine) (h : doConnOpen e = .ok e1) :
    e1.sessions = e.sessions ∧ e1.nextLinkId = e.nextLinkId ∧
    e1.nextDeliveryId = e.nextDeliveryId := by
  simp only [doConnOpen] at h
  split at h <;> cases h <;> exact ⟨rfl, rfl, rfl⟩

theorem shape_doRemoteConnOpen (e e1 : Engine) (h : doRemoteConnOpen e = .ok e1) :
    e1.sessions = e.sessions ∧ e1.nextLinkId = e.nextLinkId ∧
    e1.nextDeliveryId = e.nextDeliveryId := by
  simp only [doRemoteConnOpen] at h
  split at h <;> cases h <;> exact ⟨rfl, rfl, rfl⟩

theorem shape_doRemoteConnClose (e e1 : Engine) (h : doRemoteConnClose e = .ok e1) :
    e1.sessions = e.sessions ∧ e1.nextLinkId = e.nextLinkId ∧
    e1.nextDeliveryId = e.nextDeliveryId := by
  simp only [doRemoteConnClose] at h
  split at h <;> cases h <;> exact ⟨rfl, rfl, rfl⟩

theorem shape_doConnClose (e e1 : Engine) (h : doConnClose e = .ok e1) :
    e1 = e ∨
    (e1.sessions = (e.sessions.map closeLocalSess).filter
        (fun s => !fullyClosed s.ep) ∧
      e1.nextLinkId = e.nextLinkId ∧ e1.nextDeliveryId = e.nextDeliveryId) := by
  simp only [doConnClose] at h
  split at h
  · cases h
  · cases h; exact Or.inl rfl
  · cases h; exact Or.inr ⟨rfl, rfl, rfl⟩

theorem shape_doCreateSession (e e1 : Engine) (h : doCreateSession e = .ok e1) :
    e1.sessions = e.sessions ++
      [freshSession (smallestUnused (e.sessions.map Session.channel))] ∧
    e1.nextLinkId = e.nextLinkId ∧ e1.nextDeliveryId = e.nextDeliveryId := by
  simp only [doCreateSession] at h
  split at h
  · cases h
  · cases h; exact ⟨rfl, rfl, rfl⟩

theorem shape_doSessOpen (e : Engine) (ch : Nat) (e1 : Engine)
    (h : doSessOpen e ch = .ok e1) :
    e1 = e ∨
    (∃ f, (∀ s : Session, (f s).channel = s.channel) ∧
      (∀ s : Session, (f s).links = s.links) ∧
      e1.sessions = modifyFirst (fun t => t.channel == ch) f e.sessions ∧
      e1.nextLinkId = e.nextLinkId ∧ e1.nextDeliveryId = e.nextDeliveryId) := by
  simp only [doSessOpen] at h
  split at h
  · cases h
  · split at h
    · cases h; exact Or.inl rfl
    · cases h; exact Or.inl rfl
    · cases h
      exact Or.inr ⟨fun t => { t with ep := { t.ep with localSt := .active } },
        fun s => rfl, fun s => rfl, rfl, rfl, rfl⟩

theorem shape_doSessClose (e : Engine) (ch : Nat) (e1 : Engine)
    (h : doSessClose e ch = .ok e1) :
    e1 = e ∨
    (∃ f, (∀ s : Session, (f s).channel = s.channel) ∧
      (∀ s : Session, (f s).links = s.links) ∧
      e1.sessions = modifyFirst (fun t => t.channel == ch) f e.sessions ∧
      e1.nextLinkId = e.nextLinkId ∧ e1.nextDeliveryId = e.nextDeliveryId) ∨
    (e1.sessions = removeFirst (fun t => t.channel == ch) e.sessions ∧
      e1.nextLinkId = e.nextLinkId ∧ e1.nextDeliveryId = e.nextDeliveryId) := by
  simp only [doSessClose] at h
  split at h
  · cases h
  · split at h
    · cases h
    · cases h; exact Or.inl rfl
    · split at h
      · cases h; exact Or.inr (Or.inr ⟨rfl, rfl, rfl⟩)
      · cases h
        exact Or.inr (Or.inl
          ⟨fun t => { t with ep := { t.ep with localSt := .closed } },
            fun s => rfl, fun s => rfl, rfl, rfl, rfl⟩)

theorem shape_doRemoteSessOpen (e : Engine) (ch : Nat) (e1 : Engine)
    (h : doRemoteSessOpen e ch = .ok e1) :
    (e1.sessions = e.sessions ∧ e1.nextLinkId = e.nextLinkId ∧
      e1.nextDeliveryId = e.nextDeliveryId) ∨
    (∃ f, (∀ s : Session, (f s).channel = s.channel) ∧
      (∀ s : Session, (f s).links = s.links) ∧
      e1.sessions = modifyFirst (fun t => t.channel == ch) f e.sessions ∧
      e1.nextLinkId = e.nextLinkId ∧ e1.nextDeliveryId = e.nextDeliveryId) := by
  simp only [doRemoteSessOpen] at h
  split at h
  · cases h; exact Or.inl ⟨rfl, rfl, rfl⟩
  · split at h
    · cases h
      exact Or.inr ⟨fun t => { t with ep := { t.ep with remoteSt := .active } },
        fun s => rfl, fun s => rfl, rfl, rfl, rfl⟩
    · cases h; exact Or.inl ⟨rfl, rfl, rfl⟩

theorem shape_doRemoteSessClose (e : Engine) (ch : Nat) (e1 : Engine)
    (h : doRemoteSessClose e ch = .ok e1) :
    (e1.sessions = e.sessions ∧ e1.nextLinkId = e.nextLinkId ∧
      e1.nextDeliveryId = e.nextDeliveryId) ∨
    (∃ f, (∀ s : Session, (f s).channel = s.channel) ∧
      (∀ s : Session, (f s).links = s.links) ∧
      e1.sessions = modifyFirst (fun t => t.channel == ch) f e.sessions ∧
      e1.nextLinkId = e.nextLinkId ∧ e1.nextDeliveryId = e.nextDeliveryId) ∨
    (e1.sessions = removeFirst (fun t => t.channel == ch) e.sessions ∧
      e1.nextLinkId = e.nextLinkId ∧ e1.nextDeliveryId = e.nextDeliveryId) := by
  simp only [doRemoteSessClose] at h
  split at h
  · cases h; exact Or.inl ⟨rfl, rfl, rfl⟩
  · split at h
    · split at h
      · cases h; exact Or.inr (Or.inr ⟨rfl, rfl, rfl⟩)
      · cases h
        exact Or.inr (Or.inl
          ⟨fun t => { t with ep := { t.ep with remoteSt := .closed } },
            fun s => rfl, fun s => rfl, rfl, rfl, rfl⟩)
    · cases h; exact Or.inl ⟨rfl, rfl, rfl⟩

/-! Named forms of the link-level transforms, used to state the shapes. -/

def lkOpenUpd (t : Link) : Link :=
  { t with ep := { t.ep with localSt := .active } }

def lkCloseUpd (t : Link) : Link :=
  { t with ep := { t.ep with localSt := .closed },
           deliveries := t.deliveries.map releaseUnsettled }

def lkRemoteOpenUpd (t : Link) : Link :=
  { t with ep := { t.ep with remoteSt := .active } }

def lkRemoteCloseUpd (t : Link) : Link :=
  { t with ep := { t.ep with remoteSt := .closed } }

def lkCreditUpd (n : Nat) (t : Link) : Link :=
  { t with credit := t.credit + n }

def lkSettleUpd (id : Nat) (st : Settlement) (t : Link) : Link :=
  { t with deliveries := modifyFirst (fun d => d.id == id)
             (fun d => { d with settlement := st }) t.deliveries }

def lkTransferUpd (tag : Nat) (chunk : List Byte) (more : Bool) (t : Link) : Link :=
  { t with deliveries := modifyFirst (fun y => y.tag == tag && y.more)
             (fun y => { y with payload := y.payload ++ chunk, more := more })
             t.deliveries }

def lkNewDelivery (nid tag : Nat) (chunk : List Byte) (more : Bool)
    (t : Link) : Link :=
  { t with deliveries := t.deliveries ++
      [{ id := nid, tag := tag, settlement := .unsettled, payload := chunk,
         more := more }] }

def sessLinkUpd (ln : String) (g : Link → Link) (t : Session) : Session :=
  { t with links := modifyFirst (fun x => x.name == ln) g t.links }

def sessWinDecLinkUpd (ln : String) (g : Link → Link) (t : Session) : Session :=
  { t with incomingWindow := t.incomingWindow - 1,
           links := modifyFirst (fun x => x.name == ln) g t.links }

def sessWinIncLinkUpd (n : Nat) (ln : String) (g : Link → Link)
    (t : Session) : Session :=
  { t with incomingWindow := t.incomingWindow + n,
           links := modifyFirst (fun x => x.name == ln) g t.links }

/-- Properties of a link transform that preserve identity, keep the
delivery-count from decreasing, and trace every delivery either to one
it came from (without unsettling it) or to a fresh identity. -/
def GoodLinkUpd (nd : Nat) (g : Link → Link) : Prop :=
  (∀ x, (g x).id = x.id) ∧
  (∀ x, x.deliveryCount ≤ (g x).deliveryCount) ∧
  (∀ x, ∀ d1 ∈ (g x).deliveries,
    (∃ d ∈ x.deliveries, d1.id = d.id ∧
      (d.settlement ≠ .unsettled → d1.settlement ≠ .unsettled)) ∨ nd ≤ d1.id)

/-- A link transform that keeps a non-negative credit non-negative. -/
def GoodCredit (g : Link → Link) : Prop := ∀ x, 0 ≤ x.credit → 0 ≤ (g x).credit

/-- The engine changed its sessions only by applying `g` to the first
link named `ln` of the first session on channel `ch`. -/
def LinkLevelUpd (e e1 : Engine) (ch : Nat) (ln : String) (g : Link → Link) : Prop :=
  ∃ f, (∀ s : Session, (f s).channel = s.channel) ∧
    (∀ s : Session, (f s).links = modifyFirst (fun x => x.name == ln) g s.links) ∧
    e1.sessions = modifyFirst (fun t => t.channel == ch) f e.sessions

theorem goodLinkUpd_of_deliveries_eq (nd : Nat) (g : Link → Link)
    (hid : ∀ x, (g x).id = x.id)
    (hdc : ∀ x, x.deliveryCount ≤ (g x).deliveryCount)
    (hdel : ∀ x, (g x).deliveries = x.deliveries) :
    GoodLinkUpd nd g := by
  refine ⟨hid, hdc, fun x d1 hd1 => Or.inl ⟨d1, ?_, rfl, fun hh => hh⟩⟩
  rw [hdel x] at hd1
  exact hd1

theorem goodCredit_lkCreditUpd (n : Nat) : GoodCredit (lkCreditUpd n) := by
  intro x hx
  show (0 : Int) ≤ x.credit + (n : Int)
  omega

theorem goodLinkUpd_lkSettleUpd (nd id : Nat) (st : Settlement)
    (hst : st ≠ .unsettled) : GoodLinkUpd nd (lkSettleUpd id st) := by
  refine ⟨fun x => rfl, fun x => le_rfl, ?_⟩
  intro x d1 hd1
  rcases mem_modifyFirst _ _ _ _ hd1 with hold | ⟨d, hd, -, rfl⟩
  · exact Or.inl ⟨d1, hold, rfl, fun hh => hh⟩
  · exact Or.inl ⟨d, hd, rfl, fun _ => hst⟩

theorem goodLinkUpd_lkCloseUpd (nd : Nat) : GoodLinkUpd nd lkCloseUpd := by
  refine ⟨fun x => rfl, fun x => le_rfl, ?_⟩
  intro x d1 hd1
  obtain ⟨d, hd, rfl⟩ := List.mem_map.mp hd1
  refine Or.inl ⟨d, hd, ?_, ?_⟩
  · simp only [releaseUnsettled]
    split <;> rfl
  · intro hset
    simp only [releaseUnsettled]
    split
    · simp
    · exact hset

theorem goodLinkUpd_lkTransferUpd (nd tag : Nat) (chunk : List Byte)
    (more : Bool) : GoodLinkUpd nd (lkTransferUpd tag chunk more) := by
  refine ⟨fun x => rfl, fun x => le_rfl, ?_⟩
  intro x d1 hd1
  rcases mem_modifyFirst _ _ _ _ hd1 with hold | ⟨d, hd, -, rfl⟩
  · exact Or.inl ⟨d1, hold, rfl, fun hh => hh⟩
  · exact Or.inl ⟨d, hd, rfl, fun hh => hh⟩

theorem goodLinkUpd_lkNewDelivery (nd tag : Nat) (chunk : List Byte)
    (more : Bool) : GoodLinkUpd nd (lkNewDelivery nd tag chunk more) := by
  refine ⟨fun x => rfl, fun x => le_rfl, ?_⟩
  intro x d1 hd1
  rcases List.mem_append.mp hd1 with hold | hnew
  · exact Or.inl ⟨d1, hold, rfl, fun hh => hh⟩
  · rw [List.mem_singleton] at hnew
    subst hnew
    exact Or.inr le_rfl

theorem shape_doLinkOpen (e : Engine) (ch : Nat) (ln : String) (e1 : Engine)
    (h : doLinkOpen e ch ln = .ok e1) :
    e1 = e ∨
    ∃ g, LinkLevelUpd e e1 ch ln g ∧ GoodLinkUpd e.nextDeliveryId g ∧
      GoodCredit g ∧ e.nextLinkId ≤ e1.nextLinkId ∧
      e.nextDeliveryId ≤ e1.nextDeliveryId := by
  simp only [doLinkOpen] at h
  split at h
  · cases h
  · split at h
    · cases h
    · split at h
      · cases h; exact Or.inl rfl
      · cases h; exact Or.inl rfl
      · cases h
        exact Or.inr ⟨lkOpenUpd,
          ⟨sessLinkUpd ln lkOpenUpd, fun s => rfl, fun s => rfl, rfl⟩,
          goodLinkUpd_of_deliveries_eq _ _ (fun x => rfl) (fun x => le_rfl)
            (fun x => rfl),
          fun x hx => hx, le_rfl, le_rfl⟩

theorem shape_doLinkClose (e : Engine) (ch : Nat) (ln : String) (e1 : Engine)
    (h : doLinkClose e ch ln = .ok e1) :
    e1 = e ∨
    ∃ g, LinkLevelUpd e e1 ch ln g ∧ GoodLinkUpd e.nextDeliveryId g ∧
      GoodCredit g ∧ e.nextLinkId ≤ e1.nextLinkId ∧
      e.nextDeliveryId ≤ e1.nextDeliveryId := by
  simp only [doLinkClose] at h
  split at h
  · cases h
  · split at h
    · cases h
    · split at h
      · cases h
      · cases h; exact Or.inl rfl
      · cases h
        exact Or.inr ⟨lkCloseUpd,
          ⟨sessLinkUpd ln lkCloseUpd, fun s => rfl, fun s => rfl, rfl⟩,
          goodLinkUpd_lkCloseUpd _, fun x hx => hx, le_rfl, le_rfl⟩

theorem shape_doFlow (e : Engine) (ch : Nat) (ln : String) (n : Nat) (e1 : Engine)
    (h : doFlow e ch ln n = .ok e1) :
    e1 = e ∨
    ∃ g, LinkLevelUpd e e1 ch ln g ∧ GoodLinkUpd e.nextDeliveryId g ∧
      GoodCredit g ∧ e.nextLinkId ≤ e1.nextLinkId ∧
      e.nextDeliveryId ≤ e1.nextDeliveryId := by
  simp only [doFlow] at h
  split at h
  · cases h
  · split at h
    · cases h
    · split at h
      · cases h
      · cases h
        exact Or.inr ⟨lkCreditUpd n,
          ⟨sessWinIncLinkUpd n ln (lkCreditUpd n),
            fun s => rfl, fun s => rfl, rfl⟩,
          goodLinkUpd_of_deliveries_eq _ _ (fun x => rfl) (fun x => le_rfl)
            (fun x => rfl),
          goodCredit_lkCreditUpd n, le_rfl, le_rfl⟩

theorem shape_doLocalSettle (e : Engine) (ch : Nat) (ln : String) (id : Nat)
    (st : Settlement) (hst : st ≠ .unsettled) (e1 : Engine)
    (h : doLocalSettle e ch ln id st = .ok e1) :
    e1 = e ∨
    ∃ g, LinkLevelUpd e e1 ch ln g ∧ GoodLinkUpd e.nextDeliveryId g ∧
      GoodCredit g ∧ e.nextLinkId ≤ e1.nextLinkId ∧
      e.nextDeliveryId ≤ e1.nextDeliveryId := by
  simp only [doLocalSettle] at h
  split at h
  · cases h
  · split at h
    · cases h
    · split at h
      · cases h
      · cases h
        exact Or.inr ⟨lkSettleUpd id st,
          ⟨sessLinkUpd ln (lkSettleUpd id st),
            fun s => rfl, fun s => rfl, rfl⟩,
          goodLinkUpd_lkSettleUpd _ id st hst, fun x hx => hx, le_rfl, le_rfl⟩

theorem outcomeSettle_ne (out : Outcome) : outcomeSettle out ≠ .unsettled := by
  cases out <;> simp [outcomeSettle]

theorem shape_doRemoteLinkOpen (e : Engine) (ch : Nat) (ln : String) (e1 : Engine)
    (h : doRemoteLinkOpen e ch ln = .ok e1) :
    (e1.sessions = e.sessions ∧ e.nextLinkId ≤ e1.nextLinkId ∧
      e.nextDeliveryId ≤ e1.nextDeliveryId) ∨
    ∃ g, LinkLevelUpd e e1 ch ln g ∧ GoodLinkUpd e.nextDeliveryId g ∧
      GoodCredit g ∧ e.nextLinkId ≤ e1.nextLinkId ∧
      e.nextDeliveryId ≤ e1.nextDeliveryId := by
  simp only [doRemoteLinkOpen] at h
  split at h
  · cases h; exact Or.inl ⟨rfl, le_rfl, le_rfl⟩
  · split at h
    · cases h; exact Or.inl ⟨rfl, le_rfl, le_rfl⟩
    · split at h
      · cases h
        exact Or.inr ⟨lkRemoteOpenUpd,
          ⟨sessLinkUpd ln lkRemoteOpenUpd, fun s => rfl, fun s => rfl, rfl⟩,
          goodLinkUpd_of_deliveries_eq _ _ (fun x => rfl) (fun x => le_rfl)
            (fun x => rfl),
          fun x hx => hx, le_rfl, le_rfl⟩
      · cases h; exact Or.inl ⟨rfl, le_rfl, le_rfl⟩

theorem shape_doRemoteLinkClose (e : Engine) (ch : Nat) (ln : String) (e1 : Engine)
    (h : doRemoteLinkClose e ch ln = .ok e1) :
    (e1.sessions = e.sessions ∧ e.nextLinkId ≤ e1.nextLinkId ∧
      e.nextDeliveryId ≤ e1.nextDeliveryId) ∨
    ∃ g, LinkLevelUpd e e1 ch ln g ∧ GoodLinkUpd e.nextDeliveryId g ∧
      GoodCredit g ∧ e.nextLinkId ≤ e1.nextLinkId ∧
      e.nextDeliveryId ≤ e1.nextDeliveryId := by
  simp only [doRemoteLinkClose] at h
  split at h
  · cases h; exact Or.inl ⟨rfl, le_rfl, le_rfl⟩
  · split at h
    · cases h; exact Or.inl ⟨rfl, le_rfl, le_rfl⟩
    · split at h
      · cases h
        exact Or.inr ⟨lkRemoteCloseUpd,
          ⟨sessLinkUpd ln lkRemoteCloseUpd, fun s => rfl, fun s => rfl, rfl⟩,
          goodLinkUpd_of_deliveries_eq _ _ (fun x => rfl) (fun x => le_rfl)
            (fun x => rfl),
          fun x hx => hx, le_rfl, le_rfl⟩
      · cases h; exact Or.inl ⟨rfl, le_rfl, le_rfl⟩

theorem shape_doRemoteFlow (e : Engine) (ch : Nat) (ln : String) (n : Nat)
    (e1 : Engine) (h : doRemoteFlow e ch ln n = .ok e1) :
    (e1.sessions = e.sessions ∧ e.nextLinkId ≤ e1.nextLinkId ∧
      e.nextDeliveryId ≤ e1.nextDeliveryId) ∨
    ∃ g, LinkLevelUpd e e1 ch ln g ∧ GoodLinkUpd e.nextDeliveryId g ∧
      GoodCredit g ∧ e.nextLinkId ≤ e1.nextLinkId ∧
      e.nextDeliveryId ≤ e1.nextDeliveryId := by
  simp only [doRemoteFlow] at h
  split at h
  · cases h; exact Or.inl ⟨rfl, le_rfl, le_rfl⟩
  · split at h
    · cases h; exact Or.inl ⟨rfl, le_rfl, le_rfl⟩
    · split at h
      · cases h; exact Or.inl ⟨rfl, le_rfl, le_rfl⟩
      · cases h
        exact Or.inr ⟨lkCreditUpd n,
          ⟨sessLinkUpd ln (lkCreditUpd n), fun s => rfl, fun s => rfl, rfl⟩,
          goodLinkUpd_of_deliveries_eq _ _ (fun x => rfl) (fun x => le_rfl)
            (fun x => rfl),
          goodCredit_lkCreditUpd n, le_rfl, le_rfl⟩

theorem shape_doRemoteSettle (e : Engine) (ch : Nat) (ln : String) (id : Nat)
    (out : Outcome) (e1 : Engine) (h : doRemoteSettle e ch ln id out = .ok e1) :
    (e1.sessions = e.sessions ∧ e.nextLinkId ≤ e1.nextLinkId ∧
      e.nextDeliveryId ≤ e1.nextDeliveryId) ∨
    ∃ g, LinkLevelUpd e e1 ch ln g ∧ GoodLinkUpd e.nextDeliveryId g ∧
      GoodCredit g ∧ e.nextLinkId ≤ e1.nextLinkId ∧
      e.nextDeliveryId ≤ e1.nextDeliveryId := by
  simp only [doRemoteSettle] at h
  split at h
  · cases h; exact Or.inl ⟨rfl, le_rfl, le_rfl⟩
  · split at h
    · cases h; exact Or.inl ⟨rfl, le_rfl, le_rfl⟩
    · split at h
      · cases h; exact Or.inl ⟨rfl, le_rfl, le_rfl⟩
      · cases h
        exact Or.inr ⟨lkSettleUpd id (outcomeSettle out),
          ⟨sessLinkUpd ln (lkSettleUpd id (outcomeSettle out)),
            fun s => rfl, fun s => rfl, rfl⟩,
          goodLinkUpd_lkSettleUpd _ id _ (outcomeSettle_ne out),
          fun x hx => hx, le_rfl, le_rfl⟩

theorem shape_doRemoteTransfer (e : Engine) (ch : Nat) (ln : String) (tag : Nat)
    (chunk : List Byte) (more : Bool) (e1 : Engine)
    (h : doRemoteTransfer e ch ln tag chunk more = .ok e1) :
    (e1.sessions = e.sessions ∧ e.nextLinkId ≤ e1.nextLinkId ∧
      e.nextDeliveryId ≤ e1.nextDeliveryId) ∨
    ∃ g, LinkLevelUpd e e1 ch ln g ∧ GoodLinkUpd e.nextDeliveryId g ∧
      GoodCredit g ∧ e.nextLinkId ≤ e1.nextLinkId ∧
      e.nextDeliveryId ≤ e1.nextDeliveryId := by
  simp only [doRemoteTransfer] at h
  split at h
  · cases h; exact Or.inl ⟨rfl, le_rfl, le_rfl⟩
  · split at h
    · cases h; exact Or.inl ⟨rfl, le_rfl, le_rfl⟩
    · split at h
      · cases h; exact Or.inl ⟨rfl, le_rfl, le_rfl⟩
      · split at h
        · cases h
          exact Or.inr ⟨lkTransferUpd tag chunk more,
            ⟨sessWinDecLinkUpd ln (lkTransferUpd tag chunk more),
              fun s => rfl, fun s => rfl, rfl⟩,
            goodLinkUpd_lkTransferUpd _ tag chunk more,
            fun x hx => hx, le_rfl, le_rfl⟩
        · cases h
          refine Or.inr ⟨lkNewDelivery e.nextDeliveryId tag chunk more,
            ⟨sessWinDecLinkUpd ln (lkNewDelivery e.nextDeliveryId tag chunk more),
              fun s => rfl, fun s => rfl, rfl⟩,
            goodLinkUpd_lkNewDelivery _ tag chunk more,
            fun x hx => hx, le_rfl, ?_⟩
          show e.nextDeliveryId ≤ e.nextDeliveryId + 1
          omega

theorem shape_doCreateLink (e : Engine) (ch : Nat) (name : String)
    (dir : Direction) (e1 : Engine) (h : doCreateLink e ch name dir = .ok e1) :
    ∃ f nl, (∀ s : Session, (f s).channel = s.channel) ∧
      (∀ s : Session, (f s).links = s.links ++ [nl]) ∧
      e1.sessions = modifyFirst (fun t => t.channel == ch) f e.sessions ∧
      nl.id = e.nextLinkId ∧ nl.credit = 0 ∧ nl.deliveryCount = 0 ∧
      nl.deliveries = [] ∧
      e1.nextLinkId = e.nextLinkId + 1 ∧ e1.nextDeliveryId = e.nextDeliveryId := by
  simp only [doCreateLink] at h
  split at h
  · cases h
  · split at h
    · cases h
    · cases h
      refine ⟨fun t => { t with links := t.links ++
          [{ id := e.nextLinkId, name := name, dir := dir,
             ep := ⟨.uninit, .uninit⟩, credit := 0, deliveryCount := 0,
             nextTag := 0, deliveries := [] }] },
        { id := e.nextLinkId, name := name, dir := dir,
          ep := ⟨.uninit, .uninit⟩, credit := 0, deliveryCount := 0,
          nextTag := 0, deliveries := [] },
        fun s => rfl, fun s => rfl, rfl, rfl, rfl, rfl, rfl, rfl, rfl⟩

theorem shape_doSend (e : Engine) (ch : Nat) (ln : String) (pay : List Byte)
    (e1 : Engine) (h : doSend e ch ln pay = .ok e1) :
    ∃ s0 l0 pre post lpre lpost,
      e.sessions = pre ++ s0 :: post ∧
      s0.links = lpre ++ l0 :: lpost ∧
      0 < l0.credit ∧
      e1.sessions = pre ++
        { s0 with links := lpre ++ sendUpd e.nextDeliveryId pay l0 :: lpost } ::
          post ∧
      e1.nextLinkId = e.nextLinkId ∧
      e1.nextDeliveryId = e.nextDeliveryId + 1 := by
  simp only [doSend] at h
  split at h
  · cases h
  · rename_i s hs
    split at h
    · cases h
    · rename_i l hl
      split at h
      · cases h
      · split at h
        · cases h
        · rename_i hcred
          cases h
          obtain ⟨lpre, lpost, hls, -, -, hlmod, -⟩ :=
            find?_split (fun x : Link => x.name == ln)
              (sendUpd e.nextDeliveryId pay) s.links l
              (show s.links.find? (fun x => x.name == ln) = some l from hl)
          obtain ⟨pre, post, hss, -, -, hsmod, -⟩ :=
            find?_split (fun t : Session => t.channel == ch)
              (fun t : Session =>
                { t with links := modifyFirst (fun x => x.name == ln)
                           (sendUpd e.nextDeliveryId pay) t.links })
              e.sessions s
              (show e.sessions.find? (fun t => t.channel == ch) = some s from hs)
          refine ⟨s, l, pre, post, lpre, lpost, hss, hls, by omega, ?_, rfl, rfl⟩
          show modifyFirst (fun t : Session => t.channel == ch)
            (fun t : Session =>
              { t with links := modifyFirst (fun x => x.name == ln)
                         (sendUpd e.nextDeliveryId pay) t.links }) e.sessions = _
          rw [hsmod, hlmod]

/-! ## Membership chases over the shapes -/

theorem mem_allLinks {e : Engine} {l : Link} :
    l ∈ allLinks e ↔ ∃ s ∈ e.sessions, l ∈ s.links := by
  simp [allLinks, List.mem_flatten]

theorem mem_allDeliveries {e : Engine} {d : Delivery} :
    d ∈ allDeliveries e ↔ ∃ l ∈ allLinks e, d ∈ l.deliveries := by
  simp [allDeliveries, List.mem_flatten]

theorem sessions_eq_allLinks {e e1 : Engine} (h : e1.sessions = e.sessions) :
    allLinks e1 = allLinks e := by
  simp [allLinks, h]

theorem sessLevel_allLinks {e e1 : Engine} {ch : Nat} {f : Session → Session}
    (hlk : ∀ s : Session, (f s).links = s.links)
    (hsess : e1.sessions = modifyFirst (fun t => t.channel == ch) f e.sessions) :
    allLinks e1 = allLinks e := by
  simp [allLinks, hsess,
    map_modifyFirst_eq (fun t => t.channel == ch) f Session.links hlk]

theorem removeFirst_allLinks {e e1 : Engine} {p : Session → Bool}
    (hsess : e1.sessions = removeFirst p e.sessions) :
    ∀ l1 ∈ allLinks e1, l1 ∈ allLinks e := by
  intro l1 hl1
  rw [mem_allLinks] at hl1
  obtain ⟨s1, hs1, hl1s⟩ := hl1
  rw [hsess] at hs1
  exact mem_allLinks.mpr ⟨s1, mem_removeFirst _ _ _ hs1, hl1s⟩

theorem connClose_allLinks {e e1 : Engine}
    (hsess : e1.sessions = (e.sessions.map closeLocalSess).filter
      (fun s => !fullyClosed s.ep)) :
    ∀ l1 ∈ allLinks e1, l1 ∈ allLinks e := by
  intro l1 hl1
  rw [mem_allLinks] at hl1
  obtain ⟨s1, hs1, hl1s⟩ := hl1
  rw [hsess] at hs1
  have hs2 := List.mem_of_mem_filter hs1
  obtain ⟨s, hs, rfl⟩ := List.mem_map.mp hs2
  rw [closeLocalSess_links] at hl1s
  exact mem_allLinks.mpr ⟨s, hs, hl1s⟩

theorem createSession_allLinks {e e1 : Engine} {c : Nat}
    (hsess : e1.sessions = e.sessions ++ [freshSession c]) :
    allLinks e1 = allLinks e := by
  simp [allLinks, hsess, freshSession]

theorem linkLevelUpd_mem {e e1 : Engine} {ch : Nat} {ln : String} {g : Link → Link}
    (h : LinkLevelUpd e e1 ch ln g) :
    ∀ l1 ∈ allLinks e1, l1 ∈ allLinks e ∨ ∃ x ∈ allLinks e, l1 = g x := by
  obtain ⟨f, hch, hlk, hsess⟩ := h
  intro l1 hl1
  rw [mem_allLinks] at hl1
  obtain ⟨s1, hs1, hl1s⟩ := hl1
  rw [hsess] at hs1
  rcases mem_modifyFirst _ _ _ _ hs1 with hold | ⟨s, hs, -, rfl⟩
  · exact Or.inl (mem_allLinks.mpr ⟨s1, hold, hl1s⟩)
  · rw [hlk s] at hl1s
    rcases mem_modifyFirst _ _ _ _ hl1s with hold2 | ⟨x, hx, -, rfl⟩
    · exact Or.inl (mem_allLinks.mpr ⟨s, hs, hold2⟩)
    · exact Or.inr ⟨x, mem_allLinks.mpr ⟨s, hs, hx⟩, rfl⟩

theorem createLink_mem {e e1 : Engine} {ch : Nat} {f : Session → Session}
    {nl : Link}
    (hlk : ∀ s : Session, (f s).links = s.links ++ [nl])
    (hsess : e1.sessions = modifyFirst (fun t => t.channel == ch) f e.sessions) :
    ∀ l1 ∈ allLinks e1, l1 ∈ allLinks e ∨ l1 = nl := by
  intro l1 hl1
  rw [mem_allLinks] at hl1
  obtain ⟨s1, hs1, hl1s⟩ := hl1
  rw [hsess] at hs1
  rcases mem_modifyFirst _ _ _ _ hs1 with hold | ⟨s, hs, -, rfl⟩
  · exact Or.inl (mem_allLinks.mpr ⟨s1, hold, hl1s⟩)
  · rw [hlk s] at hl1s
    rcases List.mem_append.mp hl1s with hold2 | hnew
    · exact Or.inl (mem_allLinks.mpr ⟨s, hs, hold2⟩)
    · exact Or.inr (List.mem_singleton.mp hnew)

theorem send_mem {e e1 : Engine} {nd : Nat} {pay : List Byte}
    {s0 : Session} {l0 : Link} {pre post : List Session} {lpre lpost : List Link}
    (hss : e.sessions = pre ++ s0 :: post)
    (hls : s0.links = lpre ++ l0 :: lpost)
    (hsess : e1.sessions = pre ++
      { s0 with links := lpre ++ sendUpd nd pay l0 :: lpost } :: post) :
    ∀ l1 ∈ allLinks e1, l1 ∈ allLinks e ∨ l1 = sendUpd nd pay l0 := by
  intro l1 hl1
  rw [mem_allLinks] at hl1
  obtain ⟨s1, hs1, hl1s⟩ := hl1
  rw [hsess] at hs1
  have hs0mem : s0 ∈ e.sessions := by rw [hss]; simp
  rcases List.mem_append.mp hs1 with hpre | hs1r
  · have hmem : s1 ∈ e.sessions := by
      rw [hss]
      exact List.mem_append.mpr (Or.inl hpre)
    exact Or.inl (mem_allLinks.mpr ⟨s1, hmem, hl1s⟩)
  · rcases List.mem_cons.mp hs1r with rfl | hpost
    · rcases List.mem_append.mp hl1s with hlp | hl1r
      · have hmem : l1 ∈ s0.links := by
          rw [hls]
          exact List.mem_append.mpr (Or.inl hlp)
        exact Or.inl (mem_allLinks.mpr ⟨s0, hs0mem, hmem⟩)
      · rcases List.mem_cons.mp hl1r with rfl | hlpost
        · exact Or.inr rfl
        · have hmem : l1 ∈ s0.links := by rw [hls]; simp [hlpost]
          exact Or.inl (mem_allLinks.mpr ⟨s0, hs0mem, hmem⟩)
    · have hmem : s1 ∈ e.sessions := by rw [hss]; simp [hpost]
      exact Or.inl (mem_allLinks.mpr ⟨s1, hmem, hl1s⟩)

/-- Membership of the sending link itself. -/
theorem send_src_mem {e : Engine} {s0 : Session} {l0 : Link}
    {pre post : List Session} {lpre lpost : List Link}
    (hss : e.sessions = pre ++ s0 :: post)
    (hls : s0.links = lpre ++ l0 :: lpost) :
    l0 ∈ allLinks e :=
  mem_allLinks.mpr ⟨s0, by rw [hss]; simp, by rw [hls]; simp⟩

/-! ## Per-step preservation of the data-model invariants -/

/-- How one engine step relates the new links to the old: counters only
grow; every link after the step either evolves from an old link — same
identity, delivery-count not decreased, every delivery traced without
un-settling or fresh — or is a freshly created link. -/
def EngineEvolves (e e1 : Engine) : Prop :=
  e.nextLinkId ≤ e1.nextLinkId ∧ e.nextDeliveryId ≤ e1.nextDeliveryId ∧
  ∀ l1 ∈ allLinks e1,
    (∃ l ∈ allLinks e, l1.id = l.id ∧ l.deliveryCount ≤ l1.deliveryCount ∧
      ∀ d1 ∈ l1.deliveries,
        (∃ d ∈ l.deliveries, d1.id = d.id ∧
          (d.settlement ≠ .unsettled → d1.settlement ≠ .unsettled)) ∨
        e.nextDeliveryId ≤ d1.id) ∨
    (e.nextLinkId ≤ l1.id ∧ l1.deliveries = [])

theorem evolves_old {e : Engine} {l1 : Link} (hmem : l1 ∈ allLinks e)
    (nd : Nat) :
    ∃ l ∈ allLinks e, l1.id = l.id ∧ l.deliveryCount ≤ l1.deliveryCount ∧
      ∀ d1 ∈ l1.deliveries,
        (∃ d ∈ l.deliveries, d1.id = d.id ∧
          (d.settlement ≠ .unsettled → d1.settlement ≠ .unsettled)) ∨
        nd ≤ d1.id :=
  ⟨l1, hmem, rfl, le_rfl, fun d1 hd1 => Or.inl ⟨d1, hd1, rfl, fun hh => hh⟩⟩

theorem evolves_of_sub {e e1 : Engine}
    (h1 : e.nextLinkId ≤ e1.nextLinkId) (h2 : e.nextDeliveryId ≤ e1.nextDeliveryId)
    (hsub : ∀ l1 ∈ allLinks e1, l1 ∈ allLinks e) : EngineEvolves e e1 :=
  ⟨h1, h2, fun l1 hl1 => Or.inl (evolves_old (hsub l1 hl1) _)⟩

theorem evolves_of_linkLevel {e e1 : Engine} {ch : Nat} {ln : String}
    {g : Link → Link} (h : LinkLevelUpd e e1 ch ln g)
    (hg : GoodLinkUpd e.nextDeliveryId g)
    (h1 : e.nextLinkId ≤ e1.nextLinkId)
    (h2 : e.nextDeliveryId ≤ e1.nextDeliveryId) : EngineEvolves e e1 := by
  refine ⟨h1, h2, fun l1 hl1 => ?_⟩
  rcases linkLevelUpd_mem h l1 hl1 with hold | ⟨x, hx, rfl⟩
  · exact Or.inl (evolves_old hold _)
  · exact Or.inl ⟨x, hx, hg.1 x, hg.2.1 x, hg.2.2 x⟩

theorem step_evolves (e : Engine) (op : Op) (e1 : Engine)
    (h : step e op = .ok e1) : EngineEvolves e e1 := by
  cases op with
  | connOpen =>
    obtain ⟨hs, hl, hd⟩ := shape_doConnOpen e e1 h
    exact evolves_of_sub (le_of_eq hl.symm) (le_of_eq hd.symm)
      (fun l1 hl1 => (sessions_eq_allLinks hs) ▸ hl1)
  | connClose =>
    rcases shape_doConnClose e e1 h with rfl | ⟨hs, hl, hd⟩
    · exact evolves_of_sub le_rfl le_rfl (fun l1 hl1 => hl1)
    · exact evolves_of_sub (le_of_eq hl.symm) (le_of_eq hd.symm)
        (connClose_allLinks hs)
  | createSession =>
    obtain ⟨hs, hl, hd⟩ := shape_doCreateSession e e1 h
    exact evolves_of_sub (le_of_eq hl.symm) (le_of_eq hd.symm)
      (fun l1 hl1 => (createSession_allLinks hs) ▸ hl1)
  | sessOpen ch =>
    rcases shape_doSessOpen e ch e1 h with rfl | ⟨f, hch, hlk, hs, hl, hd⟩
    · exact evolves_of_sub le_rfl le_rfl (fun l1 hl1 => hl1)
    · exact evolves_of_sub (le_of_eq hl.symm) (le_of_eq hd.symm)
        (fun l1 hl1 => (sessLevel_allLinks hlk hs) ▸ hl1)
  | sessClose ch =>
    rcases shape_doSessClose e ch e1 h with rfl | ⟨f, hch, hlk, hs, hl, hd⟩ |
      ⟨hs, hl, hd⟩
    · exact evolves_of_sub le_rfl le_rfl (fun l1 hl1 => hl1)
    · exact evolves_of_sub (le_of_eq hl.symm) (le_of_eq hd.symm)
        (fun l1 hl1 => (sessLevel_allLinks hlk hs) ▸ hl1)
    · exact evolves_of_sub (le_of_eq hl.symm) (le_of_eq hd.symm)
        (removeFirst_allLinks hs)
  | createLink ch name dir =>
    obtain ⟨f, nl, hch, hlk, hs, hid, hcr, hdc, hdel, hl, hd⟩ :=
      shape_doCreateLink e ch name dir e1 h
    refine ⟨by omega, le_of_eq hd.symm, fun l1 hl1 => ?_⟩
    rcases createLink_mem hlk hs l1 hl1 with hold | rfl
    · exact Or.inl (evolves_old hold _)
    · exact Or.inr ⟨le_of_eq hid.symm, hdel⟩
  | linkOpen ch ln =>
    rcases shape_doLinkOpen e ch ln e1 h with rfl | ⟨g, hll, hg, -, hl, hd⟩
    · exact evolves_of_sub le_rfl le_rfl (fun l1 hl1 => hl1)
    · exact evolves_of_linkLevel hll hg hl hd
  | linkClose ch ln =>
    rcases shape_doLinkClose e ch ln e1 h with rfl | ⟨g, hll, hg, -, hl, hd⟩
    · exact evolves_of_sub le_rfl le_rfl (fun l1 hl1 => hl1)
    · exact evolves_of_linkLevel hll hg hl hd
  | send ch ln pay =>
    obtain ⟨s0, l0, pre, post, lpre, lpost, hss, hls, hcr, hsess, hl, hd⟩ :=
      shape_doSend e ch ln pay e1 h
    refine ⟨le_of_eq hl.symm, by omega, fun l1 hl1 => ?_⟩
    rcases send_mem hss hls hsess l1 hl1 with hold | rfl
    · exact Or.inl (evolves_old hold _)
    · refine Or.inl ⟨l0, send_src_mem hss hls, rfl, Nat.le_succ _, ?_⟩
      intro d1 hd1
      rcases List.mem_append.mp hd1 with hold2 | hnew
      · exact Or.inl ⟨d1, hold2, rfl, fun hh => hh⟩
      · rw [List.mem_singleton] at hnew
        subst hnew
        exact Or.inr le_rfl
  | flow ch ln n =>
    rcases shape_doFlow e ch ln n e1 h with rfl | ⟨g, hll, hg, -, hl, hd⟩
    · exact evolves_of_sub le_rfl le_rfl (fun l1 hl1 => hl1)
    · exact evolves_of_linkLevel hll hg hl hd
  | accept ch ln id =>
    rcases shape_doLocalSettle e ch ln id .settledAccepted (by simp) e1 h with
      rfl | ⟨g, hll, hg, -, hl, hd⟩
    · exact evolves_of_sub le_rfl le_rfl (fun l1 hl1 => hl1)
    · exact evolves_of_linkLevel hll hg hl hd
  | reject ch ln id =>
    rcases shape_doLocalSettle e ch ln id .settledRejected (by simp) e1 h with
      rfl | ⟨g, hll, hg, -, hl, hd⟩
    · exact evolves_of_sub le_rfl le_rfl (fun l1 hl1 => hl1)
    · exact evolves_of_linkLevel hll hg hl hd
  | release ch ln id =>
    rcases shape_doLocalSettle e ch ln id .settledReleased (by simp) e1 h with
      rfl | ⟨g, hll, hg, -, hl, hd⟩
    · exact evolves_of_sub le_rfl le_rfl (fun l1 hl1 => hl1)
    · exact evolves_of_linkLevel hll hg hl hd
  | remoteConnOpen =>
    obtain ⟨hs, hl, hd⟩ := shape_doRemoteConnOpen e e1 h
    exact evolves_of_sub (le_of_eq hl.symm) (le_of_eq hd.symm)
      (fun l1 hl1 => (sessions_eq_allLinks hs) ▸ hl1)
  | remoteConnClose =>
    obtain ⟨hs, hl, hd⟩ := shape_doRemoteConnClose e e1 h
    exact evolves_of_sub (le_of_eq hl.symm) (le_of_eq hd.symm)
      (fun l1 hl1 => (sessions_eq_allLinks hs) ▸ hl1)
  | remoteSessOpen ch =>
    rcases shape_doRemoteSessOpen e ch e1 h with ⟨hs, hl, hd⟩ |
      ⟨f, hch, hlk, hs, hl, hd⟩
    · exact evolves_of_sub (le_of_eq hl.symm) (le_of_eq hd.symm)
        (fun l1 hl1 => (sessions_eq_allLinks hs) ▸ hl1)
    · exact evolves_of_sub (le_of_eq hl.symm) (le_of_eq hd.symm)
        (fun l1 hl1 => (sessLevel_allLinks hlk hs) ▸ hl1)
  | remoteSessClose ch =>
    rcases shape_doRemoteSessClose e ch e1 h with ⟨hs, hl, hd⟩ |
      ⟨f, hch, hlk, hs, hl, hd⟩ | ⟨hs, hl, hd⟩
    · exact evolves_of_sub (le_of_eq hl.symm) (le_of_eq hd.symm)
        (fun l1 hl1 => (sessions_eq_allLinks hs) ▸ hl1)
    · exact evolves_of_sub (le_of_eq hl.symm) (le_of_eq hd.symm)
        (fun l1 hl1 => (sessLevel_allLinks hlk hs) ▸ hl1)
    · exact evolves_of_sub (le_of_eq hl.symm) (le_of_eq hd.symm)
        (removeFirst_allLinks hs)
  | remoteLinkOpen ch ln =>
    rcases shape_doRemoteLinkOpen e ch ln e1 h with ⟨hs, hl, hd⟩ |
      ⟨g, hll, hg, -, hl, hd⟩
    · exact evolves_of_sub hl hd (fun l1 hl1 => (sessions_eq_allLinks hs) ▸ hl1)
    · exact evolves_of_linkLevel hll hg hl hd
  | remoteLinkClose ch ln =>
    rcases shape_doRemoteLinkClose e ch ln e1 h with ⟨hs, hl, hd⟩ |
      ⟨g, hll, hg, -, hl, hd⟩
    · exact evolves_of_sub hl hd (fun l1 hl1 => (sessions_eq_allLinks hs) ▸ hl1)
    · exact evolves_of_linkLevel hll hg hl hd
  | remoteFlow ch ln n =>
    rcases shape_doRemoteFlow e ch ln n e1 h with ⟨hs, hl, hd⟩ |
      ⟨g, hll, hg, -, hl, hd⟩
    · exact evolves_of_sub hl hd (fun l1 hl1 => (sessions_eq_allLinks hs) ▸ hl1)
    · exact evolves_of_linkLevel hll hg hl hd
  | remoteTransfer ch ln tag chunk more =>
    rcases shape_doRemoteTransfer e ch ln tag chunk more e1 h with ⟨hs, hl, hd⟩ |
      ⟨g, hll, hg, -, hl, hd⟩
    · exact evolves_of_sub hl hd (fun l1 hl1 => (sessions_eq_allLinks hs) ▸ hl1)
    · exact evolves_of_linkLevel hll hg hl hd
  | remoteDisposition ch ln id out =>
    rcases shape_doRemoteSettle e ch ln id out e1 h with ⟨hs, hl, hd⟩ |
      ⟨g, hll, hg, -, hl, hd⟩
    · exact evolves_of_sub hl hd (fun l1 hl1 => (sessions_eq_allLinks hs) ▸ hl1)
    · exact evolves_of_linkLevel hll hg hl hd

theorem applyOp_evolves (e : Engine) (op : Op) : EngineEvolves e (applyOp e op) := by
  unfold applyOp
  cases hstep : step e op with
  | ok e1 => exact step_evolves e op e1 hstep
  | error err => exact evolves_of_sub le_rfl le_rfl (fun l1 hl1 => hl1)

theorem step_credit (e : Engine) (op : Op) (e1 : Engine)
    (h : step e op = .ok e1) (hc : ∀ l ∈ allLinks e, 0 ≤ l.credit) :
    ∀ l1 ∈ allLinks e1, 0 ≤ l1.credit := by
  cases op with
  | connOpen =>
    obtain ⟨hs, -, -⟩ := shape_doConnOpen e e1 h
    intro l1 hl1
    exact hc l1 ((sessions_eq_allLinks hs) ▸ hl1)
  | connClose =>
    rcases shape_doConnClose e e1 h with rfl | ⟨hs, -, -⟩
    · exact hc
    · intro l1 hl1
      exact hc l1 (connClose_allLinks hs l1 hl1)
  | createSession =>
    obtain ⟨hs, -, -⟩ := shape_doCreateSession e e1 h
    intro l1 hl1
    exact hc l1 ((createSession_allLinks hs) ▸ hl1)
  | sessOpen ch =>
    rcases shape_doSessOpen e ch e1 h with rfl | ⟨f, -, hlk, hs, -, -⟩
    · exact hc
    · intro l1 hl1
      exact hc l1 ((sessLevel_allLinks hlk hs) ▸ hl1)
  | sessClose ch =>
    rcases shape_doSessClose e ch e1 h with rfl | ⟨f, -, hlk, hs, -, -⟩ |
      ⟨hs, -, -⟩
    · exact hc
    · intro l1 hl1
      exact hc l1 ((sessLevel_allLinks hlk hs) ▸ hl1)
    · intro l1 hl1
      exact hc l1 (removeFirst_allLinks hs l1 hl1)
  | createLink ch name dir =>
    obtain ⟨f, nl, -, hlk, hs, -, hcr, -, -, -, -⟩ :=
      shape_doCreateLink e ch name dir e1 h
    intro l1 hl1
    rcases createLink_mem hlk hs l1 hl1 with hold | rfl
    · exact hc l1 hold
    · rw [hcr]
  | linkOpen ch ln =>
    rcases shape_doLinkOpen e ch ln e1 h with rfl | ⟨g, hll, -, hgc, -, -⟩
    · exact hc
    · intro l1 hl1
      rcases linkLevelUpd_mem hll l1 hl1 with hold | ⟨x, hx, rfl⟩
      · exact hc l1 hold
      · exact hgc x (hc x hx)
  | linkClose ch ln =>
    rcases shape_doLinkClose e ch ln e1 h with rfl | ⟨g, hll, -, hgc, -, -⟩
    · exact hc
    · intro l1 hl1
      rcases linkLevelUpd_mem hll l1 hl1 with hold | ⟨x, hx, rfl⟩
      · exact hc l1 hold
      · exact hgc x (hc x hx)
  | send ch ln pay =>
    obtain ⟨s0, l0, pre, post, lpre, lpost, hss, hls, hcr, hsess, -, -⟩ :=
      shape_doSend e ch ln pay e1 h
    intro l1 hl1
    rcases send_mem hss hls hsess l1 hl1 with hold | rfl
    · exact hc l1 hold
    · show (0 : Int) ≤ l0.credit - 1
      omega
  | flow ch ln n =>
    rcases shape_doFlow e ch ln n e1 h with rfl | ⟨g, hll, -, hgc, -, -⟩
    · exact hc
    · intro l1 hl1
      rcases linkLevelUpd_mem hll l1 hl1 with hold | ⟨x, hx, rfl⟩
      · exact hc l1 hold
      · exact hgc x (hc x hx)
  | accept ch ln id =>
    rcases shape_doLocalSettle e ch ln id .settledAccepted (by simp) e1 h with
      rfl | ⟨g, hll, -, hgc, -, -⟩
    · exact hc
    · intro l1 hl1
      rcases linkLevelUpd_mem hll l1 hl1 with hold | ⟨x, hx, rfl⟩
      · exact hc l1 hold
      · exact hgc x (hc x hx)
  | reject ch ln id =>
    rcases shape_doLocalSettle e ch ln id .settledRejected (by simp) e1 h with
      rfl | ⟨g, hll, -, hgc, -, -⟩
    · exact hc
    · intro l1 hl1
      rcases linkLevelUpd_mem hll l1 hl1 with hold | ⟨x, hx, rfl⟩
      · exact hc l1 hold
      · exact hgc x (hc x hx)
  | release ch ln id =>
    rcases shape_doLocalSettle e ch ln id .settledReleased (by simp) e1 h with
      rfl | ⟨g, hll, -, hgc, -, -⟩
    · exact hc
    · intro l1 hl1
      rcases linkLevelUpd_mem hll l1 hl1 with hold | ⟨x, hx, rfl⟩
      · exact hc l1 hold
      · exact hgc x (hc x hx)
  | remoteConnOpen =>
    obtain ⟨hs, -, -⟩ := shape_doRemoteConnOpen e e1 h
    intro l1 hl1
    exact hc l1 ((sessions_eq_allLinks hs) ▸ hl1)
  | remoteConnClose =>
    obtain ⟨hs, -, -⟩ := shape_doRemoteConnClose e e1 h
    intro l1 hl1
    exact hc l1 ((sessions_eq_allLinks hs) ▸ hl1)
  | remoteSessOpen ch =>
    rcases shape_doRemoteSessOpen e ch e1 h with ⟨hs, -, -⟩ |
      ⟨f, -, hlk, hs, -, -⟩
    · intro l1 hl1
      exact hc l1 ((sessions_eq_allLinks hs) ▸ hl1)
    · intro l1 hl1
      exact hc l1 ((sessLevel_allLinks hlk hs) ▸ hl1)
  | remoteSessClose ch =>
    rcases shape_doRemoteSessClose e ch e1 h with ⟨hs, -, -⟩ |
      ⟨f, -, hlk, hs, -, -⟩ | ⟨hs, -, -⟩
    · intro l1 hl1
      exact hc l1 ((sessions_eq_allLinks hs) ▸ hl1)
    · intro l1 hl1
      exact hc l1 ((sessLevel_allLinks hlk hs) ▸ hl1)
    · intro l1 hl1
      exact hc l1 (removeFirst_allLinks hs l1 hl1)
  | remoteLinkOpen ch ln =>
    rcases shape_doRemoteLinkOpen e ch ln e1 h with ⟨hs, -, -⟩ |
      ⟨g, hll, -, hgc, -, -⟩
    · intro l1 hl1
      exact hc l1 ((sessions_eq_allLinks hs) ▸ hl1)
    · intro l1 hl1
      rcases linkLevelUpd_mem hll l1 hl1 with hold | ⟨x, hx, rfl⟩
      · exact hc l1 hold
      · exact hgc x (hc x hx)
  | remoteLinkClose ch ln =>
    rcases shape_doRemoteLinkClose e ch ln e1 h with ⟨hs, -, -⟩ |
      ⟨g, hll, -, hgc, -, -⟩
    · intro l1 hl1
      exact hc l1 ((sessions_eq_allLinks hs) ▸ hl1)
    · intro l1 hl1
      rcases linkLevelUpd_mem hll l1 hl1 with hold | ⟨x, hx, rfl⟩
      · exact hc l1 hold
      · exact hgc x (hc x hx)
  | remoteFlow ch ln n =>
    rcases shape_doRemoteFlow e ch ln n e1 h with ⟨hs, -, -⟩ |
      ⟨g, hll, -, hgc, -, -⟩
    · intro l1 hl1
      exact hc l1 ((sessions_eq_allLinks hs) ▸ hl1)
    · intro l1 hl1
      rcases linkLevelUpd_mem hll l1 hl1 with hold | ⟨x, hx, rfl⟩
      · exact hc l1 hold
      · exact hgc x (hc x hx)
  | remoteTransfer ch ln tag chunk more =>
    rcases shape_doRemoteTransfer e ch ln tag chunk more e1 h with ⟨hs, -, -⟩ |
      ⟨g, hll, -, hgc, -, -⟩
    · intro l1 hl1
      exact hc l1 ((sessions_eq_allLinks hs) ▸ hl1)
    · intro l1 hl1
      rcases linkLevelUpd_mem hll l1 hl1 with hold | ⟨x, hx, rfl⟩
      · exact hc l1 hold
      · exact hgc x (hc x hx)
  | remoteDisposition ch ln id out =>
    rcases shape_doRemoteSettle e ch ln id out e1 h with ⟨hs, -, -⟩ |
      ⟨g, hll, -, hgc, -, -⟩
    · intro l1 hl1
      exact hc l1 ((sessions_eq_allLinks hs) ▸ hl1)
    · intro l1 hl1
      rcases linkLevelUpd_mem hll l1 hl1 with hold | ⟨x, hx, rfl⟩
      · exact hc l1 hold
      · exact hgc x (hc x hx)

theorem map_channel_closeLocalSess (ss : List Session) :
    (ss.map closeLocalSess).map Session.channel = ss.map Session.channel := by
  induction ss with
  | nil => rfl
  | cons a as ih => simp [ih, closeLocalSess_channel]

theorem nodup_concat_of_not_mem {l : List Nat} {a : Nat} (h : l.Nodup)
    (ha : a ∉ l) : (l ++ [a]).Nodup := by
  induction l with
  | nil => simp
  | cons x xs ih =>
    rcases List.nodup_cons.mp h with ⟨hx, hxs⟩
    have hax : a ≠ x := fun hh => ha (hh ▸ List.mem_cons_self x xs)
    have ha2 : a ∉ xs := fun hh => ha (List.mem_cons_of_mem x hh)
    rw [List.cons_append]
    refine List.nodup_cons.mpr ⟨?_, ih hxs ha2⟩
    intro hmem
    rcases List.mem_append.mp hmem with h1 | h1
    · exact hx h1
    · exact hax (List.mem_singleton.mp h1).symm

theorem step_chanNodup (e : Engine) (op : Op) (e1 : Engine)
    (h : step e op = .ok e1) (hn : (e.sessions.map Session.channel).Nodup) :
    (e1.sessions.map Session.channel).Nodup := by
  cases op with
  | connOpen =>
    obtain ⟨hs, -, -⟩ := shape_doConnOpen e e1 h
    rw [hs]; exact hn
  | connClose =>
    rcases shape_doConnClose e e1 h with rfl | ⟨hs, -, -⟩
    · exact hn
    · rw [hs]
      have hsub : (((e.sessions.map closeLocalSess).filter
          (fun s => !fullyClosed s.ep)).map Session.channel).Sublist
          ((e.sessions.map closeLocalSess).map Session.channel) :=
        (List.filter_sublist _).map Session.channel
      rw [map_channel_closeLocalSess] at hsub
      exact hn.sublist hsub
  | createSession =>
    obtain ⟨hs, -, -⟩ := shape_doCreateSession e e1 h
    rw [hs]
    simp only [List.map_append, List.map_cons, List.map_nil]
    exact nodup_concat_of_not_mem hn
      (smallestUnused_spec (e.sessions.map Session.channel)).1
  | sessOpen ch =>
    rcases shape_doSessOpen e ch e1 h with rfl | ⟨f, hch, -, hs, -, -⟩
    · exact hn
    · rw [hs, map_modifyFirst_eq _ f Session.channel hch]; exact hn
  | sessClose ch =>
    rcases shape_doSessClose e ch e1 h with rfl | ⟨f, hch, -, hs, -, -⟩ |
      ⟨hs, -, -⟩
    · exact hn
    · rw [hs, map_modifyFirst_eq _ f Session.channel hch]; exact hn
    · rw [hs]
      exact hn.sublist ((removeFirst_sublist _ _).map Session.channel)
  | createLink ch name dir =>
    obtain ⟨f, nl, hch, -, hs, -, -, -, -, -, -⟩ :=
      shape_doCreateLink e ch name dir e1 h
    rw [hs, map_modifyFirst_eq _ f Session.channel hch]; exact hn
  | linkOpen ch ln =>
    rcases shape_doLinkOpen e ch ln e1 h with rfl | ⟨g, ⟨f, hch, -, hs⟩, -, -, -, -⟩
    · exact hn
    · rw [hs, map_modifyFirst_eq _ f Session.channel hch]; exact hn
  | linkClose ch ln =>
    rcases shape_doLinkClose e ch ln e1 h with rfl | ⟨g, ⟨f, hch, -, hs⟩, -, -, -, -⟩
    · exact hn
    · rw [hs, map_modifyFirst_eq _ f Session.channel hch]; exact hn
  | send ch ln pay =>
    obtain ⟨s0, l0, pre, post, lpre, lpost, hss, hls, -, hsess, -, -⟩ :=
      shape_doSend e ch ln pay e1 h
    rw [hsess]
    rw [hss] at hn
    simpa using hn
  | flow ch ln n =>
    rcases shape_doFlow e ch ln n e1 h with rfl | ⟨g, ⟨f, hch, -, hs⟩, -, -, -, -⟩
    · exact hn
    · rw [hs, map_modifyFirst_eq _ f Session.channel hch]; exact hn
  | accept ch ln id =>
    rcases shape_doLocalSettle e ch ln id .settledAccepted (by simp) e1 h with
      rfl | ⟨g, ⟨f, hch, -, hs⟩, -, -, -, -⟩
    · exact hn
    · rw [hs, map_modifyFirst_eq _ f Session.channel hch]; exact hn
  | reject ch ln id =>
    rcases shape_doLocalSettle e ch ln id .settledRejected (by simp) e1 h with
      rfl | ⟨g, ⟨f, hch, -, hs⟩, -, -, -, -⟩
    · exact hn
    · rw [hs, map_modifyFirst_eq _ f Session.channel hch]; exact hn
  | release ch ln id =>
    rcases shape_doLocalSettle e ch ln id .settledReleased (by simp) e1 h with
      rfl | ⟨g, ⟨f, hch, -, hs⟩, -, -, -, -⟩
    · exact hn
    · rw [hs, map_modifyFirst_eq _ f Session.channel hch]; exact hn
  | remoteConnOpen =>
    obtain ⟨hs, -, -⟩ := shape_doRemoteConnOpen e e1 h
    rw [hs]; exact hn
  | remoteConnClose =>
    obtain ⟨hs, -, -⟩ := shape_doRemoteConnClose e e1 h
    rw [hs]; exact hn
  | remoteSessOpen ch =>
    rcases shape_doRemoteSessOpen e ch e1 h with ⟨hs, -, -⟩ |
      ⟨f, hch, -, hs, -, -⟩
    · rw [hs]; exact hn
    · rw [hs, map_modifyFirst_eq _ f Session.channel hch]; exact hn
  | remoteSessClose ch =>
    rcases shape_doRemoteSessClose e ch e1 h with ⟨hs, -, -⟩ |
      ⟨f, hch, -, hs, -, -⟩ | ⟨hs, -, -⟩
    · rw [hs]; exact hn
    · rw [hs, map_modifyFirst_eq _ f Session.channel hch]; exact hn
    · rw [hs]
      exact hn.sublist ((removeFirst_sublist _ _).map Session.channel)
  | remoteLinkOpen ch ln =>
    rcases shape_doRemoteLinkOpen e ch ln e1 h with ⟨hs, -, -⟩ |
      ⟨g, ⟨f, hch, -, hs⟩, -, -, -, -⟩
    · rw [hs]; exact hn
    · rw [hs, map_modifyFirst_eq _ f Session.channel hch]; exact hn
  | remoteLinkClose ch ln =>
    rcases shape_doRemoteLinkClose e ch ln e1 h with ⟨hs, -, -⟩ |
      ⟨g, ⟨f, hch, -, hs⟩, -, -, -, -⟩
    · rw [hs]; exact hn
    · rw [hs, map_modifyFirst_eq _ f Session.channel hch]; exact hn
  | remoteFlow ch ln n =>
    rcases shape_doRemoteFlow e ch ln n e1 h with ⟨hs, -, -⟩ |
      ⟨g, ⟨f, hch, -, hs⟩, -, -, -, -⟩
    · rw [hs]; exact hn
    · rw [hs, map_modifyFirst_eq _ f Session.channel hch]; exact hn
  | remoteTransfer ch ln tag chunk more =>
    rcases shape_doRemoteTransfer e ch ln tag chunk more e1 h with ⟨hs, -, -⟩ |
      ⟨g, ⟨f, hch, -, hs⟩, -, -, -, -⟩
    · rw [hs]; exact hn
    · rw [hs, map_modifyFirst_eq _ f Session.channel hch]; exact hn
  | remoteDisposition ch ln id out =>
    rcases shape_doRemoteSettle e ch ln id out e1 h with ⟨hs, -, -⟩ |
      ⟨g, ⟨f, hch, -, hs⟩, -, -, -, -⟩
    · rw [hs]; exact hn
    · rw [hs, map_modifyFirst_eq _ f Session.channel hch]; exact hn

/-! ## Lifting the per-step facts to operation sequences -/

theorem applyOp_credit (e : Engine) (op : Op)
    (hc : ∀ l ∈ allLinks e, 0 ≤ l.credit) :
    ∀ l1 ∈ allLinks (applyOp e op), 0 ≤ l1.credit := by
  unfold applyOp
  cases hstep : step e op with
  | ok e1 => exact step_credit e op e1 hstep hc
  | error err => exact hc

theorem applyOp_chanNodup (e : Engine) (op : Op)
    (hn : (e.sessions.map Session.channel).Nodup) :
    ((applyOp e op).sessions.map Session.channel).Nodup := by
  unfold applyOp
  cases hstep : step e op with
  | ok e1 => exact step_chanNodup e op e1 hstep hn
  | error err => exact hn

theorem runOps_credit : ∀ (ops : List Op) (e : Engine),
    (∀ l ∈ allLinks e, 0 ≤ l.credit) →
    ∀ l1 ∈ allLinks (runOps e ops), 0 ≤ l1.credit := by
  intro ops
  induction ops with
  | nil => intro e hc; exact hc
  | cons op ops ih =>
    intro e hc
    exact ih (applyOp e op) (applyOp_credit e op hc)

theorem runOps_chanNodup : ∀ (ops : List Op) (e : Engine),
    (e.sessions.map Session.channel).Nodup →
    ((runOps e ops).sessions.map Session.channel).Nodup := by
  intro ops
  induction ops with
  | nil => intro e hn; exact hn
  | cons op ops ih =>
    intro e hn
    exact ih (applyOp e op) (applyOp_chanNodup e op hn)

theorem runOps_dcMono (lid dc : Nat) : ∀ (ops : List Op) (e : Engine),
    lid < e.nextLinkId →
    (∀ l1 ∈ allLinks e, l1.id = lid → dc ≤ l1.deliveryCount) →
    ∀ l1 ∈ allLinks (runOps e ops), l1.id = lid → dc ≤ l1.deliveryCount := by
  intro ops
  induction ops with
  | nil => intro e hlt hbase; exact hbase
  | cons op ops ih =>
    intro e hlt hbase
    obtain ⟨h1, h2, h3⟩ := applyOp_evolves e op
    refine ih (applyOp e op) (by omega) ?_
    intro l1 hl1 hid
    rcases h3 l1 hl1 with ⟨l, hl, hideq, hdc, -⟩ | ⟨hge, -⟩
    · have hlid : l.id = lid := by rw [← hideq]; exact hid
      exact le_trans (hbase l hl hlid) hdc
    · omega

theorem runOps_settleMono (did : Nat) : ∀ (ops : List Op) (e : Engine),
    did < e.nextDeliveryId →
    (∀ d ∈ allDeliveries e, d.id = did → d.settlement ≠ .unsettled) →
    ∀ d1 ∈ allDeliveries (runOps e ops), d1.id = did →
      d1.settlement ≠ .unsettled := by
  intro ops
  induction ops with
  | nil => intro e hlt hbase; exact hbase
  | cons op ops ih =>
    intro e hlt hbase
    obtain ⟨h1, h2, h3⟩ := applyOp_evolves e op
    refine ih (applyOp e op) (by omega) ?_
    intro d1 hd1 hid
    rw [mem_allDeliveries] at hd1
    obtain ⟨l1, hl1, hd1l⟩ := hd1
    rcases h3 l1 hl1 with ⟨l, hl, -, -, hdel⟩ | ⟨-, hempty⟩
    · rcases hdel d1 hd1l with ⟨d, hd, hide, hpres⟩ | hge
      · have hdid : d.id = did := by rw [← hide]; exact hid
        exact hpres (hbase d (mem_allDeliveries.mpr ⟨l, hl, hd⟩) hdid)
      · omega
    · rw [hempty] at hd1l
      cases hd1l

/-! ## C3: delivery-count monotone, credit non-negative -/

/-- C3: across any sequence of engine operations, no link's
delivery-count ever decreases (links are tracked by their engine-unique
identity), and no link's credit is ever negative. -/
theorem link_counters_monotone (e : Engine) (ops : List Op)
    (hb : ∀ l ∈ allLinks e, l.id < e.nextLinkId)
    (hc : ∀ l ∈ allLinks e, 0 ≤ l.credit)
    (hnd : ((allLinks e).map Link.id).Nodup) :
    (∀ l1 ∈ allLinks (runOps e ops), 0 ≤ l1.credit) ∧
    (∀ l ∈ allLinks e, ∀ l1 ∈ allLinks (runOps e ops),
      l1.id = l.id → l.deliveryCount ≤ l1.deliveryCount) := by
  constructor
  · exact runOps_credit ops e hc
  · intro l hl l1 hl1 hid
    refine runOps_dcMono l.id l.deliveryCount ops e (hb l hl) ?_ l1 hl1 hid
    intro l2 hl2 hid2
    have heq : l2 = l := List.inj_on_of_nodup_map hnd hl2 hl hid2
    rw [heq]

theorem link_counters_monotone_witness :
    ((∀ l ∈ allLinks (sampleEngine sampleLink),
        l.id < (sampleEngine sampleLink).nextLinkId) ∧
      (∀ l ∈ allLinks (sampleEngine sampleLink), 0 ≤ l.credit) ∧
      ((allLinks (sampleEngine sampleLink)).map Link.id).Nodup) ∧
    ((∀ l1 ∈ allLinks (runOps (sampleEngine sampleLink)
        [.remoteFlow 0 "L1" 2, .send 0 "L1" [mkByte 9]]), 0 ≤ l1.credit) ∧
      (∀ l ∈ allLinks (sampleEngine sampleLink),
        ∀ l1 ∈ allLinks (runOps (sampleEngine sampleLink)
          [.remoteFlow 0 "L1" 2, .send 0 "L1" [mkByte 9]]),
        l1.id = l.id → l.deliveryCount ≤ l1.deliveryCount)) :=
  ⟨⟨by decide, by decide, by decide⟩,
   link_counters_monotone (sampleEngine sampleLink)
     [.remoteFlow 0 "L1" 2, .send 0 "L1" [mkByte 9]]
     (by decide) (by decide) (by decide)⟩

/-! ## C4: settlement is monotonic -/

/-- C4: once a delivery's settlement state differs from unsettled, no
subsequent operation — local accept/reject/release or a remote
disposition or transfer frame — ever returns it to unsettled. -/
theorem settlement_monotone (e : Engine) (ops : List Op) (did : Nat)
    (hlt : did < e.nextDeliveryId)
    (hset : ∀ d ∈ allDeliveries e, d.id = did → d.settlement ≠ .unsettled) :
    ∀ d1 ∈ allDeliveries (runOps e ops), d1.id = did →
      d1.settlement ≠ .unsettled :=
  runOps_settleMono did ops e hlt hset

def settledDelivery : Delivery :=
  { id := 0, tag := 0, settlement := .settledAccepted, payload := [],
    more := false }

def sampleLinkD : Link := { sampleLink with deliveries := [settledDelivery] }

def sampleEngineD : Engine :=
  { connEp := ⟨.active, .active⟩, sessions := [sampleSession sampleLinkD],
    maxFrameSize := 512, channelMax := 32767, nextLinkId := 1,
    nextDeliveryId := 1, frames := [], events := [] }

theorem settlement_monotone_witness :
    ((0 : Nat) < sampleEngineD.nextDeliveryId ∧
      (∀ d ∈ allDeliveries sampleEngineD, d.id = 0 →
        d.settlement ≠ .unsettled)) ∧
    (∀ d1 ∈ allDeliveries (runOps sampleEngineD
        [.remoteDisposition 0 "L1" 0 .released, .release 0 "L1" 0]),
      d1.id = 0 → d1.settlement ≠ .unsettled) :=
  ⟨⟨by decide, by decide⟩,
   settlement_monotone sampleEngineD
     [.remoteDisposition 0 "L1" 0 .released, .release 0 "L1" 0] 0
     (by decide) (by decide)⟩

/-! ## C5: channel allocation -/

/-- C5: channel numbers of the connection's sessions stay pairwise
distinct under every operation sequence; `create_session` allocates the
smallest non-negative integer not used by any open session; and after a
session fully closes its channel is reused — concretely, two sessions on
a fresh connection get channels 0 and 1, and fully closing session 0
makes the next session reuse channel 0. -/
theorem channel_allocation_spec :
    (∀ (e : Engine) (ops : List Op), (e.sessions.map Session.channel).Nodup →
      ((runOps e ops).sessions.map Session.channel).Nodup) ∧
    (∀ e e1 : Engine, step e .createSession = .ok e1 →
      e1.sessions = e.sessions ++
        [freshSession (smallestUnused (e.sessions.map Session.channel))] ∧
      smallestUnused (e.sessions.map Session.channel) ∉
        e.sessions.map Session.channel ∧
      ∀ m < smallestUnused (e.sessions.map Session.channel),
        m ∈ e.sessions.map Session.channel) ∧
    (runOps initEngine [.connOpen, .createSession, .createSession]).sessions.map
      Session.channel = [0, 1] ∧
    (runOps initEngine [.connOpen, .createSession, .createSession, .sessOpen 0,
      .remoteSessOpen 0, .sessClose 0, .remoteSessClose 0,
      .createSession]).sessions.map Session.channel = [1, 0] := by
  refine ⟨?_, ?_, by decide, by decide⟩
  · intro e ops hn
    exact runOps_chanNodup ops e hn
  · intro e e1 h
    obtain ⟨hs, -, -⟩ := shape_doCreateSession e e1 h
    exact ⟨hs, (smallestUnused_spec _).1, (smallestUnused_spec _).2⟩

theorem channel_allocation_spec_witness :
    ((initEngine.sessions.map Session.channel).Nodup ∧
      ((runOps initEngine [.createSession]).sessions.map Session.channel).Nodup) ∧
    (step (sampleEngine sampleLink) .createSession =
        .ok (applyOp (sampleEngine sampleLink) .createSession) ∧
      (applyOp (sampleEngine sampleLink) .createSession).sessions =
        (sampleEngine sampleLink).sessions ++
          [freshSession (smallestUnused
            ((sampleEngine sampleLink).sessions.map Session.channel))]) :=
  ⟨⟨by decide, channel_allocation_spec.1 initEngine [.createSession] (by decide)⟩,
   ⟨rfl, (channel_allocation_spec.2.1 (sampleEngine sampleLink) _ rfl).1⟩⟩

end Proton
